import Mathlib

/-!
# Denali Wayland client library: verification of the wire codec,
# id manager, code generator and dispatch core

A shallow embedding of the `denali` repository's core Rust code
(`denali-core/src/wire/serde.rs`, `wire/mod.rs`, `wire/fixed.rs`,
`id_manager.rs`, `proxy.rs`, `handler.rs`, and the code generator in
`denali-macro/src/wire/messages.rs`, `helpers.rs`,
`interface/method.rs`), together with theorems checking the design
document's claims against it.

Conventions of the embedding:
* Byte buffers are `List Nat`, one entry per byte (writers only ever
  produce values `< 256` via `% 256`).
* Rust machine integers become `Nat`/`Int` with explicit `% 2^w`
  where a cast or overflow matters (`as u16` is `% 65536`, etc.).
* Fallible Rust functions returning `Result<_, SerdeError>` become
  `Except SerdeError _`; functions that can additionally reach a Rust
  `assert!`/`panic` return a `DecodeResult` with an explicit `panic`
  outcome.
* The Rust `Cursor<&mut [u8]>` writes are modelled by replacing the
  written prefix of the remaining buffer; buffer length is preserved.
-/

namespace Denali

/-! ## Little-endian byte helpers (byteorder's `write_u16::<LE>` etc.) -/

/-- The two little-endian bytes of a 16-bit value. -/
def u16LE (v : Nat) : List Nat := [v % 256, v / 256 % 256]

/-- The four little-endian bytes of a 32-bit value. -/
def u32LE (v : Nat) : List Nat :=
  [v % 256, v / 256 % 256, v / 2 ^ 16 % 256, v / 2 ^ 24 % 256]

/-- Read a little-endian u16 from the first two bytes of a buffer. -/
def readU16 (data : List Nat) : Nat :=
  data.getD 0 0 + 256 * data.getD 1 0

/-- Read a little-endian u32 from the first four bytes of a buffer. -/
def readU32 (data : List Nat) : Nat :=
  data.getD 0 0 + 256 * data.getD 1 0 + 2 ^ 16 * data.getD 2 0 + 2 ^ 24 * data.getD 3 0

/-- Interpret a `Nat < 2^32` as a two's-complement i32. -/
def asI32 (n : Nat) : Int :=
  if n < 2 ^ 31 then (n : Int) else (n : Int) - 2 ^ 32

/-- The `Nat < 2^32` representing an `Int` as a two's-complement u32
(the bit pattern an `i32` write puts on the wire). -/
def toU32 (v : Int) : Nat := (v % 2 ^ 32).toNat

/-! ## `wire/mod.rs` -/

/-- `pad_to_32_bits`: pads the given position to the next multiple of 4 bytes.
Rust: `(pos + 3) & !3`, which on naturals is `(pos + 3) - (pos + 3) % 4`. -/
def pad_to_32_bits (pos : Nat) : Nat := (pos + 3) - (pos + 3) % 4

/-! ## `wire/serde.rs`: error type and decode outcomes -/

/-- `SerdeError` from `wire/serde.rs`. -/
inductive SerdeError where
  | InvalidSize
  | IoError
  | InvalidEnumValue
deriving DecidableEq, Repr

/-- Outcome of a Rust decode function: a value, a returned `SerdeError`,
or a panic (a failed `assert!`). -/
inductive DecodeResult (α : Type) where
  | ok (v : α)
  | err (e : SerdeError)
  | panic
deriving DecidableEq, Repr

/-- Rust's `Encode` trait together with `MessageSize`: the reported
size and the buffer-writing function. `encode` returns the updated
buffer (same length as the input) and the returned byte count. -/
structure WEncode (α : Type) where
  size : α → Nat
  encode : α → List Nat → Except SerdeError (List Nat × Nat)

/-- Rust's `Decode` trait together with `MessageSize`: the reported
size and the buffer-reading function. -/
structure WDecode (α : Type) where
  size : α → Nat
  decode : List Nat → DecodeResult α

/-! ## Wire types and their serde impls (`wire/serde.rs`) -/

/-- `MessageHeader`: the header of a Wayland message, fields in
declaration order `object_id: u32`, `opcode: u16`, `size: u16`. -/
structure MessageHeader where
  object_id : Nat
  opcode : Nat
  size : Nat
deriving DecidableEq, Repr

/-- `MessageHeader::SIZE = size_of::<MessageHeader>()` (repr(C): 8 bytes). -/
def MessageHeader.SIZE : Nat := 8

/-- The bytes `Encode for MessageHeader` writes: each field in
declaration order, little-endian. -/
def MessageHeader.bytes (h : MessageHeader) : List Nat :=
  u32LE h.object_id ++ u16LE h.opcode ++ u16LE h.size

/-- `Encode for MessageHeader` (generated by `impl_serde!`):
`ensure_size!` then write each field in declaration order, LE. -/
def MessageHeader.encode (h : MessageHeader) (data : List Nat) :
    Except SerdeError (List Nat × Nat) :=
  if data.length < MessageHeader.SIZE then .error .InvalidSize
  else .ok (h.bytes ++ data.drop 8, MessageHeader.SIZE)

/-- `Decode for MessageHeader` (generated by `impl_serde!`):
`ensure_size!` then read each field in declaration order, LE. -/
def MessageHeader.decode (data : List Nat) : DecodeResult MessageHeader :=
  if data.length < MessageHeader.SIZE then .err .InvalidSize
  else .ok ⟨readU32 data, readU16 (data.drop 4), readU16 (data.drop 6)⟩

def headerEncode : WEncode MessageHeader :=
  ⟨fun _ => MessageHeader.SIZE, MessageHeader.encode⟩

def headerDecode : WDecode MessageHeader :=
  ⟨fun _ => MessageHeader.SIZE, MessageHeader.decode⟩

/-- `impl_serde!(u32)`: `Self::SIZE = 4`. A `u32` value is a `Nat < 2^32`. -/
def u32_encode (v : Nat) (data : List Nat) : Except SerdeError (List Nat × Nat) :=
  if data.length < 4 then .error .InvalidSize
  else .ok (u32LE v ++ data.drop 4, 4)

def u32_decode (data : List Nat) : DecodeResult Nat :=
  if data.length < 4 then .err .InvalidSize
  else .ok (readU32 data)

def u32Encode : WEncode Nat := ⟨fun _ => 4, u32_encode⟩

def u32Decode : WDecode Nat := ⟨fun _ => 4, u32_decode⟩

/-- `impl_serde!(i32)`: an `i32` value is an `Int` in `[-2^31, 2^31)`;
its wire form is the two's-complement little-endian u32. -/
def i32_encode (v : Int) (data : List Nat) : Except SerdeError (List Nat × Nat) :=
  if data.length < 4 then .error .InvalidSize
  else .ok (u32LE (toU32 v) ++ data.drop 4, 4)

def i32_decode (data : List Nat) : DecodeResult Int :=
  if data.length < 4 then .err .InvalidSize
  else .ok (asI32 (readU32 data))

def i32Encode : WEncode Int := ⟨fun _ => 4, i32_encode⟩

def i32Decode : WDecode Int := ⟨fun _ => 4, i32_decode⟩

/-- `Fixed` (`wire/fixed.rs`): signed 24.8 fixed point stored as `i32`. -/
structure Fixed where
  val : Int
deriving DecidableEq, Repr

/-- `Encode for Fixed`: `ensure_size!` then `write_i32::<LE>(self.0)`. -/
def Fixed.encode (v : Fixed) (data : List Nat) : Except SerdeError (List Nat × Nat) :=
  if data.length < 4 then .error .InvalidSize
  else .ok (u32LE (toU32 v.val) ++ data.drop 4, 4)

/-- `Decode for Fixed`: `ensure_size!` then `read_i32::<LE>`. -/
def Fixed.decode (data : List Nat) : DecodeResult Fixed :=
  if data.length < 4 then .err .InvalidSize
  else .ok ⟨asI32 (readU32 data)⟩

def fixedEncode : WEncode Fixed := ⟨fun _ => 4, Fixed.encode⟩

def fixedDecode : WDecode Fixed := ⟨fun _ => 4, Fixed.decode⟩

/-- Is `b` a UTF-8 continuation byte (`0x80..=0xBF`)? -/
def isCont (b : Nat) : Bool := 0x80 ≤ b && b ≤ 0xBF

/-- UTF-8 validity of a byte sequence, as checked by
`std::str::from_utf8` (rejecting overlong forms, surrogates and
values above U+10FFFF). -/
def isValidUtf8 : List Nat → Bool
  | [] => true
  | b :: rest =>
    if b ≤ 0x7F then isValidUtf8 rest
    else if b < 0xC2 then false
    else if b ≤ 0xDF then
      match rest with
      | c1 :: r => isCont c1 && isValidUtf8 r
      | [] => false
    else if b ≤ 0xEF then
      match rest with
      | c1 :: c2 :: r =>
        (if b = 0xE0 then 0xA0 ≤ c1 && c1 ≤ 0xBF
         else if b = 0xED then 0x80 ≤ c1 && c1 ≤ 0x9F
         else isCont c1) && isCont c2 && isValidUtf8 r
      | _ => false
    else if b ≤ 0xF4 then
      match rest with
      | c1 :: c2 :: c3 :: r =>
        (if b = 0xF0 then 0x90 ≤ c1 && c1 ≤ 0xBF
         else if b = 0xF4 then 0x80 ≤ c1 && c1 ≤ 0x8F
         else isCont c1) && isCont c2 && isCont c3 && isValidUtf8 r
      | _ => false
    else false

/-- The wire `String<'a>` type: its `Cow<'a, str>` payload as UTF-8
bytes. -/
structure WString where
  data : List Nat
deriving DecidableEq, Repr

/-- `MessageSize for String`: `self.data.len() + 5` (4 length bytes +
1 NUL terminator). -/
def WString.size (s : WString) : Nat := s.data.length + 5

/-- `Encode for String`: check `data.len() < size`, then write the
u32 LE byte length (`len as u32`), the raw bytes, and a NUL. -/
def WString.encode (s : WString) (data : List Nat) :
    Except SerdeError (List Nat × Nat) :=
  if data.length < s.size then .error .InvalidSize
  else
    .ok (u32LE (s.data.length % 2 ^ 32) ++ s.data ++ [0] ++ data.drop s.size, s.size)

/-- `Decode for String`: read the u32 length `size`, require
`data.len() ≥ size + 5`, take `array_data = data[4 .. size + 5]`,
`assert!` the trailing NUL (a panic, not an `Err`), then UTF-8-check
`array_data[..size]`, mapping failure to `InvalidSize`. -/
def WString.decode (data : List Nat) : DecodeResult WString :=
  if data.length < 4 then .err .InvalidSize
  else
    let size := readU32 data
    if data.length < size + 5 then .err .InvalidSize
    else
      let array_data := (data.drop 4).take (size + 1)
      if array_data.getLast? = some 0 then
        if isValidUtf8 (array_data.take size) then .ok ⟨array_data.take size⟩
        else .err .InvalidSize
      else .panic

/-- The wire `Array<'a>` type: its `Cow<'a, [u8]>` payload. -/
structure WArray where
  data : List Nat
deriving DecidableEq, Repr

/-- `MessageSize for Array`: `self.data.len() + 4`. -/
def WArray.size (a : WArray) : Nat := a.data.length + 4

/-- `Encode for Array`: check `data.len() < size`, then write the u32
LE byte length and the raw bytes. -/
def WArray.encode (a : WArray) (data : List Nat) :
    Except SerdeError (List Nat × Nat) :=
  if data.length < a.size then .error .InvalidSize
  else .ok (u32LE (a.data.length % 2 ^ 32) ++ a.data ++ data.drop a.size, a.size)

/-- `Decode for Array`: read the u32 length `size`, require
`data.len() ≥ size + 4`, return `data[4 .. size + 4]`. -/
def WArray.decode (data : List Nat) : DecodeResult WArray :=
  if data.length < 4 then .err .InvalidSize
  else
    let size := readU32 data
    if data.length < size + 4 then .err .InvalidSize
    else .ok ⟨(data.drop 4).take size⟩

def arrayEncode : WEncode WArray := ⟨WArray.size, WArray.encode⟩

def arrayDecode : WDecode WArray := ⟨WArray.size, WArray.decode⟩

def stringEncode : WEncode WString := ⟨WString.size, WString.encode⟩

def stringDecode : WDecode WString := ⟨WString.size, WString.decode⟩

/-- `impl Encode for ()`: writes nothing, returns 0
(`MessageSize for ()` reports `size_of::<()>() = 0`). -/
def unitEncode : WEncode Unit := ⟨fun _ => 0, fun _ data => .ok (data, 0)⟩

/-! ## `wire/mod.rs`: the aligned buffer cursor and message framing -/

/-- `MessageEncoder<'a>`: a cursor position over a mutable byte slice. -/
structure MessageEncoder where
  data : List Nat
  pos : Nat
deriving DecidableEq, Repr

/-- `MessageEncoder::write`: encode at the current position (a cursor
over `data[pos..]`), then advance the position to
`pad_to_32_bits(pos + value.size())`. -/
def MessageEncoder.write {α : Type} (c : WEncode α) (st : MessageEncoder) (v : α) :
    Except SerdeError MessageEncoder :=
  match c.encode v (st.data.drop st.pos) with
  | .error e => .error e
  | .ok (buf, _) => .ok ⟨st.data.take st.pos ++ buf, pad_to_32_bits (st.pos + c.size v)⟩

/-- `MessageDecoder<'a>`: a cursor position over a byte slice. -/
structure MessageDecoder where
  data : List Nat
  pos : Nat
deriving DecidableEq, Repr

/-- `MessageDecoder::read`: decode from `data[pos..]`, then advance
the position to `pad_to_32_bits(pos + result.size())`. -/
def MessageDecoder.read {α : Type} (c : WDecode α) (st : MessageDecoder) :
    DecodeResult (α × MessageDecoder) :=
  match c.decode (st.data.drop st.pos) with
  | .ok v => .ok (v, ⟨st.data, pad_to_32_bits (st.pos + c.size v)⟩)
  | .err e => .err e
  | .panic => .panic

/-- `encode_message`: build the header with
`size = (MessageHeader::SIZE + message.size()) as u16`, write the
header then the message through the aligned cursor, and return the
final position. -/
def encode_message {α : Type} (c : WEncode α) (message : α)
    (object_id : Nat) (opcode : Nat) (data : List Nat) :
    Except SerdeError (List Nat × Nat) :=
  let header : MessageHeader :=
    ⟨object_id, opcode, (MessageHeader.SIZE + c.size message) % 2 ^ 16⟩
  match MessageEncoder.write headerEncode ⟨data, 0⟩ header with
  | .error e => .error e
  | .ok st1 =>
    match MessageEncoder.write c st1 message with
    | .error e => .error e
    | .ok st2 => .ok (st2.data, st2.pos)

/-- `DynamicallyTypedNewId<'a>`: interface name, version, id, in
declaration order. -/
structure DynamicallyTypedNewId where
  interface : WString
  version : Nat
  id : Nat
deriving DecidableEq, Repr

/-- `MessageSize for DynamicallyTypedNewId`:
`self.interface.size() + u32::SIZE + ObjectId::SIZE`. -/
def DynamicallyTypedNewId.size (v : DynamicallyTypedNewId) : Nat :=
  v.interface.size + 4 + 4

/-- `Encode for DynamicallyTypedNewId`: write interface, version, id
through a nested `MessageEncoder`; return `self.size()`. -/
def DynamicallyTypedNewId.encode (v : DynamicallyTypedNewId) (data : List Nat) :
    Except SerdeError (List Nat × Nat) :=
  match MessageEncoder.write stringEncode ⟨data, 0⟩ v.interface with
  | .error e => .error e
  | .ok st1 =>
    match MessageEncoder.write u32Encode st1 v.version with
    | .error e => .error e
    | .ok st2 =>
      match MessageEncoder.write u32Encode st2 v.id with
      | .error e => .error e
      | .ok st3 => .ok (st3.data, v.size)

def dynNewIdEncode : WEncode DynamicallyTypedNewId :=
  ⟨DynamicallyTypedNewId.size, DynamicallyTypedNewId.encode⟩

/-! ## The generated message structs (`denali-macro/src/wire/messages.rs`)

A generated message struct is a sequence of typed fields; the Rust
member type of each protocol argument is given by
`expand_argument_type` (`helpers.rs`): `uint`/`object`/statically
typed `new_id` map to `u32`, `int` to `i32`, `fixed` to `Fixed`,
`string` to `String`, `array` to `Array`, `fd` to `()`, dynamically
typed `new_id` to `DynamicallyTypedNewId`. -/

inductive Field where
  | uintF (v : Nat)
  | intF (v : Int)
  | fixedF (v : Fixed)
  | newIdF (v : Nat)
  | stringF (s : WString)
  | arrayF (a : WArray)
  | fdF
  | dynNewIdF (v : DynamicallyTypedNewId)
deriving DecidableEq, Repr

/-- The per-field `MessageSize::size` of the struct member holding the
field (`()` for an fd reports `size_of::<()>() = 0`). -/
def Field.fieldSize : Field → Nat
  | .uintF _ => 4
  | .intF _ => 4
  | .fixedF _ => 4
  | .newIdF _ => 4
  | .stringF s => s.size
  | .arrayF a => a.size
  | .fdF => 0
  | .dynNewIdF v => v.size

def Field.isFd : Field → Bool
  | .fdF => true
  | _ => false

/-- The generated `MessageSize::size`: `size += self.field.size()` over
every member in declaration order. -/
def messageSize (fs : List Field) : Nat := (fs.map Field.fieldSize).sum

/-- One `traverser.write(&self.field)` of the generated `Encode`. -/
def Field.write (st : MessageEncoder) : Field → Except SerdeError MessageEncoder
  | .uintF v => MessageEncoder.write u32Encode st v
  | .intF v => MessageEncoder.write i32Encode st v
  | .fixedF v => MessageEncoder.write fixedEncode st v
  | .newIdF v => MessageEncoder.write u32Encode st v
  | .stringF s => MessageEncoder.write stringEncode st s
  | .arrayF a => MessageEncoder.write arrayEncode st a
  | .fdF => MessageEncoder.write unitEncode st ()
  | .dynNewIdF v => MessageEncoder.write dynNewIdEncode st v

def writeFields : MessageEncoder → List Field → Except SerdeError MessageEncoder
  | st, [] => .ok st
  | st, f :: fs =>
    match Field.write st f with
    | .error e => .error e
    | .ok st' => writeFields st' fs

/-- The generated `Encode::encode`: write each member in declaration
order through a `MessageEncoder`, return `traverser.position()`. -/
def messageEncode (fs : List Field) (data : List Nat) :
    Except SerdeError (List Nat × Nat) :=
  match writeFields ⟨data, 0⟩ fs with
  | .error e => .error e
  | .ok st => .ok (st.data, st.pos)

/-- The generated message struct as an `Encode` value. -/
def generatedMessage : WEncode (List Field) := ⟨messageSize, messageEncode⟩

/-! ## The code generator's compile-time size decision
(`denali-macro/src/wire/messages.rs` `build_message`,
`denali-macro/src/helpers.rs` `is_size_known_at_compile_time`) -/

/-- A protocol argument as parsed from the XML (`protocol_parser::Arg`),
restricted to the two attributes the size decision reads. -/
structure Arg where
  type_ : String
  interface : Option String
deriving DecidableEq, Repr

/-- `is_size_known_at_compile_time`: no `string`, no `array`, no
dynamically typed `new_id` (a `new_id` without an `interface`). -/
def is_size_known_at_compile_time (args : List Arg) : Bool :=
  !args.any fun arg =>
    arg.type_ == "string" || arg.type_ == "array" ||
      (arg.type_ == "new_id" && arg.interface == none)

/-- `args_with_size`: the non-fd arguments
(`args.iter().filter(|arg| arg.type_ != "fd")`). -/
def argsWithSize (args : List Arg) : List Arg :=
  args.filter fun a => a.type_ ≠ "fd"

/-- The value of `<arg_type_to_rust_type(type_)>::SIZE` named by the
emitted `CompileTimeMessageSize` impl: `u32`/`i32`/`Fixed` have
`SIZE = 4` and `()` has `SIZE = 0`, while the wire `String`/`Array`
types implement only `MessageSize`, so the emitted token stream names
a constant that does not exist (`none`: the generated code cannot
compile). `new_id` maps to `u32` here regardless of whether it is
dynamically typed. -/
def compileTimeSizeOfRustType (type_ : String) : Option Nat :=
  if type_ == "uint" || type_ == "object" || type_ == "new_id" then some 4
  else if type_ == "int" then some 4
  else if type_ == "fixed" then some 4
  else if type_ == "fd" then some 0
  else none

/-- The `compile_time_size` fragment of `build_message`: the generator
emits a `CompileTimeMessageSize` impl exactly in the `else` branch of
`is_size_known_at_compile_time(&args_with_size)`; the emitted `SIZE`
sums `arg_type_to_rust_type(arg.type_)::SIZE` over `args_with_size`
(`some none` = an impl is emitted whose `SIZE` expression names a
missing constant). `none` = no impl is emitted. -/
def emittedCompileTimeSize (args : List Arg) : Option (Option Nat) :=
  let aws := argsWithSize args
  if is_size_known_at_compile_time aws then none
  else some (
    if aws.isEmpty then some 0
    else (aws.map fun a => compileTimeSizeOfRustType a.type_).foldr
      (fun x acc =>
        match x, acc with
        | some n, some m => some (n + m)
        | _, _ => none)
      (some 0))

/-! ## `id_manager.rs`

`IdManagerInner` holds a monotonic `next: u32` cursor and a min-heap
`free_list: BinaryHeap<Reverse<u32>>`. The heap is modelled as an
ascending sorted list: `peek` is the head, `pop` drops the head,
`push` inserts in order. `next - 1` is `Nat` truncated subtraction;
it agrees with the `u32` subtraction whenever `next ≥ 1`, which holds
in every reachable state considered below. -/

def CLIENT_MIN_ID : Nat := 0x00000001

def CLIENT_MAX_ID : Nat := 0xfeffffff

inductive IdManagerError where
  | OutOfClientIds (id : Nat)
deriving DecidableEq, Repr

structure IdManagerInner where
  next : Nat
  free_list : List Nat
deriving DecidableEq, Repr

/-- `IdManagerInner::new()`: `next = CLIENT_MIN_ID`, empty heap. -/
def IdManagerInner.new : IdManagerInner := ⟨CLIENT_MIN_ID, []⟩

/-- `BinaryHeap::push` on the min-heap model: ordered insertion. -/
def heapPush (id : Nat) : List Nat → List Nat
  | [] => [id]
  | x :: xs => if id ≤ x then id :: x :: xs else x :: heapPush id xs

/-- `IdManagerInner::peek_next_id`. -/
def IdManagerInner.peek_next_id (st : IdManagerInner) : Except IdManagerError Nat :=
  if CLIENT_MAX_ID < st.next && st.free_list.isEmpty then
    .error (.OutOfClientIds st.next)
  else
    match st.free_list.head? with
    | some free_id => if free_id < st.next then .ok free_id else .ok st.next
    | none => .ok st.next

/-- `IdManagerInner::alloc_id`: pop the heap minimum when it is below
`next`, otherwise return `next` and increment it. -/
def IdManagerInner.alloc_id (st : IdManagerInner) :
    Except IdManagerError (Nat × IdManagerInner) :=
  if CLIENT_MAX_ID < st.next && st.free_list.isEmpty then
    .error (.OutOfClientIds st.next)
  else
    match st.free_list.head? with
    | some free_id =>
      if free_id < st.next then .ok (free_id, ⟨st.next, st.free_list.tail⟩)
      else .ok (st.next, ⟨st.next + 1, st.free_list⟩)
    | none => .ok (st.next, ⟨st.next + 1, st.free_list⟩)

/-- The `while` loop of `recycle_id`: while the heap minimum `top`
satisfies `top + 1 == next`, pop it and decrement `next`. -/
def sweepTail : Nat → List Nat → Nat × List Nat
  | next, [] => (next, [])
  | next, top :: rest =>
    if top + 1 = next then sweepTail (next - 1) rest else (next, top :: rest)

/-- `IdManagerInner::recycle_id`: if `id == next - 1`, decrement
`next` and absorb the contiguous tail of the heap; otherwise push
`id` onto the heap. -/
def IdManagerInner.recycle_id (id : Nat) (st : IdManagerInner) : IdManagerInner :=
  if id = st.next - 1 then
    let r := sweepTail (st.next - 1) st.free_list
    ⟨r.1, r.2⟩
  else
    ⟨st.next, heapPush id st.free_list⟩

/-! ### Traces of alloc/recycle operations

`outs` is the bookkeeping list of outstanding ids: ids returned by a
successful `alloc_id` and not since passed to `recycle_id`. -/

inductive Op where
  | alloc
  | recycle (id : Nat)
deriving DecidableEq, Repr

/-- Well-formed operation sequences: each `recycle_id` call's argument
is currently outstanding (returned by an earlier successful `alloc_id`
and not since recycled). -/
def wfOps : IdManagerInner → List Nat → List Op → Bool
  | _, _, [] => true
  | st, outs, Op.alloc :: rest =>
    match st.alloc_id with
    | .ok (id, st') => wfOps st' (id :: outs) rest
    | .error _ => wfOps st outs rest
  | st, outs, Op.recycle id :: rest =>
    decide (id ∈ outs) && wfOps (IdManagerInner.recycle_id id st) (outs.erase id) rest

/-- Along a trace, every successful `alloc_id` returns an id in
`[CLIENT_MIN_ID, CLIENT_MAX_ID]` that is not currently outstanding. -/
def allocsOk : IdManagerInner → List Nat → List Op → Bool
  | _, _, [] => true
  | st, outs, Op.alloc :: rest =>
    match st.alloc_id with
    | .ok (id, st') =>
      (decide (CLIENT_MIN_ID ≤ id) && decide (id ≤ CLIENT_MAX_ID) &&
        !decide (id ∈ outs)) && allocsOk st' (id :: outs) rest
    | .error _ => allocsOk st outs rest
  | st, outs, Op.recycle id :: rest =>
    allocsOk (IdManagerInner.recycle_id id st) (outs.erase id) rest

/-! ## `wire/fixed.rs`: conversions of the 24.8 fixed-point type -/

/-- `From<Fixed> for i32`: `value.0 / 256` (Rust `i32` division
truncates toward zero). The `i8`/`i16`/`i64`/`i128`/`isize` impls
compute the same quotient before their casts. -/
def Fixed.toI32 (v : Fixed) : Int := Int.tdiv v.val 256

/-- `From<Fixed> for i64`: `i64::from(value.0 / 256)` (the cast is
exact). -/
def Fixed.toI64 (v : Fixed) : Int := Int.tdiv v.val 256

/-- `From<Fixed> for u32`: `(value.0 >> 8) as u32`. `>> 8` on `i32`
is the arithmetic right shift; the `as u32` cast truncates to 32
bits. -/
def Fixed.toU32 (v : Fixed) : Nat := Denali.toU32 (v.val >>> (8 : Nat))

/-- `From<Fixed> for u8`: `(value.0 >> 8) as u8`. -/
def Fixed.toU8 (v : Fixed) : Nat := Denali.toU32 (v.val >>> (8 : Nat)) % 2 ^ 8

/-- Round half away from zero: the semantics of `f64::round`. -/
def roundHalfAway (q : ℚ) : Int := if 0 ≤ q then ⌊q + 1 / 2⌋ else ⌈q - 1 / 2⌉

/-- Rust's saturating `as i32` cast from a float. -/
def satI32 (v : Int) : Int := max (-(2 ^ 31)) (min (2 ^ 31 - 1) v)

/-- `impl<T: AsPrimitive<f64>> From<T> for Fixed`:
`Fixed((value.as_() * 256.0).round() as i32)`, for an input whose
`f64` value is the rational `q`. Finite `f64` values are dyadic
rationals and `* 256.0` and `.round()` are exact on them (no rounding
happens below `2^1000`), so the rational model is exact. -/
def Fixed.fromFloat (q : ℚ) : Fixed := ⟨satI32 (roundHalfAway (q * 256))⟩

/-- The integer sources go through the same `AsPrimitive<f64>` impl;
`n as f64` is exact for `|n| < 2^53`, which covers every `i8..=i32`
and `u8..=u32` input. -/
def Fixed.fromInt (n : Int) : Fixed := Fixed.fromFloat (n : ℚ)

/-! ## `handler.rs`: message decoding over coproducts -/

inductive DecodeMessageError where
  | UnknownInterface (name : String)
  | UnknownOpcode (opcode : Nat)
  | DecodeError (e : SerdeError)
deriving DecidableEq, Repr

/-- frunk's `Coproduct<A, B>`. -/
inductive Coproduct (α β : Type) where
  | Inl (a : α)
  | Inr (b : β)
deriving DecidableEq, Repr

/-- frunk's `CNil`: the empty coproduct. -/
inductive CNil deriving DecidableEq

/-- The shape of a `Message::try_decode` implementation:
`(interface, opcode, data) → Result<Self, DecodeMessageError>`. -/
def TryDecode (α : Type) : Type :=
  String → Nat → List Nat → Except DecodeMessageError α

/-- `impl Message for Coproduct<A, B>`: try `A`; on success inject
left; on `UnknownInterface` fall through to `B` injected right; on any
other error return it. -/
def Coproduct.try_decode {α β : Type} (dA : TryDecode α) (dB : TryDecode β) :
    TryDecode (Coproduct α β) :=
  fun interface opcode data =>
    match dA interface opcode data with
    | .ok msg => .ok (.Inl msg)
    | .error (.UnknownInterface _) => (dB interface opcode data).map .Inr
    | .error e => .error e

/-- `impl Message for CNil`: always `UnknownInterface(interface)`. -/
def CNil.try_decode : TryDecode CNil :=
  fun interface _ _ => .error (.UnknownInterface interface)

/-! ## `proxy.rs` and the generated request methods
(`denali-macro/src/interface/method.rs`,
`denali-client/src/display_connection.rs`)

The shared mutable context a proxy touches — the id manager, the
interface map (`BTreeMap<ObjectId, String>`, modelled as an
association list) and the write channel (modelled as the ordered list
of enqueued messages) — is threaded explicitly as `ClientState`. -/

structure RequestMessage where
  fds : List Nat
  buffer : List Nat
deriving DecidableEq, Repr

def mapInsert (k : Nat) (v : String) : List (Nat × String) → List (Nat × String)
  | [] => [(k, v)]
  | (k', v') :: rest =>
    if k = k' then (k, v) :: rest else (k', v') :: mapInsert k v rest

def mapLookup (k : Nat) : List (Nat × String) → Option String
  | [] => none
  | (k', v') :: rest => if k = k' then some v' else mapLookup k rest

structure ClientState where
  idm : IdManagerInner
  interface_map : List (Nat × String)
  sent : List RequestMessage
deriving DecidableEq, Repr

/-- `Proxy::register_interface`: peek the next id from the shared
manager (the Rust code unwraps; the error case models the panic) and
insert `(new_id → interface)` into the shared interface map. -/
def register_interface (interface : String) (st : ClientState) :
    Except IdManagerError ClientState :=
  match st.idm.peek_next_id with
  | .error e => .error e
  | .ok new_id =>
    .ok { st with interface_map := mapInsert new_id interface st.interface_map }

/-- `Proxy::create_object::<T>` / `create_object_raw`:
`register_interface` first, then `Proxy::new`, which allocates the
new proxy's id via `alloc_id`. -/
def create_object (interface : String) (st : ClientState) :
    Except IdManagerError (Nat × ClientState) :=
  match register_interface interface st with
  | .error e => .error e
  | .ok st1 =>
    match st1.idm.alloc_id with
    | .error e => .error e
    | .ok (id, idm') => .ok (id, { st1 with idm := idm' })

/-- `Proxy::send_request`: enqueue the message on the write channel. -/
def send_request (msg : RequestMessage) (st : ClientState) : ClientState :=
  { st with sent := st.sent ++ [msg] }

/-- The generated request-method body (`build_request_method_body`)
for a request with a statically typed `new_id` of interface `name`:
`create_object` (which registers the interface before allocating),
then build the request struct and serialize it into a buffer of
exactly `size() + HEADER_SIZE` bytes (pure; abstracted as `mkMsg`
applied to the allocated id), then `send_request`. -/
def requestMethodBody (name : String) (mkMsg : Nat → RequestMessage)
    (st : ClientState) : Except IdManagerError (Nat × ClientState) :=
  match create_object name st with
  | .error e => .error e
  | .ok (id, st1) => .ok (id, send_request (mkMsg id) st1)

/-- `DisplayConnection::new` (denali-client): fresh id manager and
empty interface map; pre-insert `peek_next_id() → "wl_display"`; then
construct the display proxy via `Proxy::new`, which allocates its id.
Returns the display's id and the resulting shared state. -/
def displayConnectionNew : Except IdManagerError (Nat × ClientState) :=
  let idm := IdManagerInner.new
  match idm.peek_next_id with
  | .error e => .error e
  | .ok init_id =>
    let map := mapInsert init_id "wl_display" []
    match idm.alloc_id with
    | .error e => .error e
    | .ok (display_id, idm') => .ok (display_id, ⟨idm', map, []⟩)

/-- The request buffer built by the generated
`WlDisplay::registry()` body: `get_registry` is the second request of
`wl_display` (opcode 1) with a single statically typed `new_id`
argument, so the buffer has `4 + HEADER_SIZE = 12` bytes. The
`encode_message` call cannot fail on this pre-sized buffer; the `[]`
arm is unreachable. -/
def get_registry_buffer (display_id id : Nat) : List Nat :=
  match encode_message generatedMessage [Field.newIdF id] display_id 1
      (List.replicate 12 0) with
  | .ok (buf, _) => buf
  | .error _ => []

/-- The generated `WlDisplay::registry()` method body. -/
def wlDisplayRegistry (display_id : Nat) (st : ClientState) :
    Except IdManagerError (Nat × ClientState) :=
  requestMethodBody "wl_registry"
    (fun id => ⟨[], get_registry_buffer display_id id⟩) st

/-! ## Helper lemmas about the byte-level primitives -/

theorem u32LE_length (v : Nat) : (u32LE v).length = 4 := rfl

theorem u16LE_length (v : Nat) : (u16LE v).length = 2 := rfl

theorem readU32_u32LE (v : Nat) (rest : List Nat) (hv : v < 2 ^ 32) :
    readU32 (u32LE v ++ rest) = v := by
  simp only [readU32, u32LE, List.cons_append, List.nil_append, List.getD_cons_zero,
    List.getD_cons_succ]
  omega

theorem readU16_u16LE (v : Nat) (rest : List Nat) (hv : v < 2 ^ 16) :
    readU16 (u16LE v ++ rest) = v := by
  simp only [readU16, u16LE, List.cons_append, List.nil_append, List.getD_cons_zero,
    List.getD_cons_succ]
  omega

/-- C1 counterexample: encoding the header `{object_id=1, opcode=3,
size=16}` writes the 8 bytes `01 00 00 00 03 00 10 00` — the opcode
bytes `03 00` come before the size bytes `10 00`, because the struct
fields are declared (and therefore written) in the order `object_id`,
`opcode`, `size`. The claim's byte listing `01 00 00 00 10 00 03 00`
(size before opcode) is therefore not what the code writes. -/
theorem C1_counterexample :
    MessageHeader.encode ⟨1, 3, 16⟩ (List.replicate 16 0) =
      .ok ([1, 0, 0, 0, 3, 0, 16, 0] ++ List.replicate 8 0, 8) ∧
    ([1, 0, 0, 0, 3, 0, 16, 0] : List Nat) ≠ [1, 0, 0, 0, 16, 0, 3, 0] :=
  ⟨rfl, by decide⟩

/-- C1 (amended): the header is serialized as the three fields
`object_id: u32`, `opcode: u16`, `size: u16`, little-endian, in that
order; for `{object_id=1, opcode=3, size=16}` the first 8 bytes are
`01 00 00 00 03 00 10 00`, and decoding them returns the same
header. -/
theorem C1_header_layout (h : MessageHeader) (data : List Nat)
    (hObj : h.object_id < 2 ^ 32) (hOp : h.opcode < 2 ^ 16) (hSz : h.size < 2 ^ 16)
    (hLen : 8 ≤ data.length) :
    MessageHeader.encode h data =
      .ok (u32LE h.object_id ++ (u16LE h.opcode ++ (u16LE h.size ++ data.drop 8)), 8) ∧
    MessageHeader.decode
        (u32LE h.object_id ++ (u16LE h.opcode ++ (u16LE h.size ++ data.drop 8))) =
      .ok h := by
  constructor
  · simp only [MessageHeader.encode, MessageHeader.SIZE, MessageHeader.bytes]
    rw [if_neg (by omega)]
    simp [List.append_assoc]
  · simp only [MessageHeader.decode, MessageHeader.SIZE]
    rw [if_neg (by simp [u32LE, u16LE])]
    have h4 : (u32LE h.object_id ++ (u16LE h.opcode ++ (u16LE h.size ++ data.drop 8))).drop 4 =
        u16LE h.opcode ++ (u16LE h.size ++ data.drop 8) := rfl
    have h6 : (u32LE h.object_id ++ (u16LE h.opcode ++ (u16LE h.size ++ data.drop 8))).drop 6 =
        u16LE h.size ++ data.drop 8 := rfl
    rw [readU32_u32LE _ _ hObj, h4, h6, readU16_u16LE _ _ hOp, readU16_u16LE _ _ hSz]

/-- Witness for `C1_header_layout` at `{object_id=1, opcode=3, size=16}`. -/
theorem C1_header_layout_witness :
    MessageHeader.encode ⟨1, 3, 16⟩ (List.replicate 16 0) =
      .ok (u32LE 1 ++ (u16LE 3 ++ (u16LE 16 ++ (List.replicate 16 0).drop 8)), 8) ∧
    MessageHeader.decode
        (u32LE 1 ++ (u16LE 3 ++ (u16LE 16 ++ (List.replicate 16 0).drop 8))) =
      .ok ⟨1, 3, 16⟩ :=
  C1_header_layout ⟨1, 3, 16⟩ (List.replicate 16 0) (by decide) (by decide) (by decide)
    (by decide)

/-- C5: from a fresh id manager, `alloc()=1`, `alloc()=2`,
`recycle(1)` (pushed onto the heap since `1 ≠ next−1 = 2`),
`alloc()=1` (popped from the heap); then `recycle(2)` (tail:
`next` drops to 2), `recycle(1)` (tail: `next` drops to 1), and the
next `alloc()` returns 1. -/
theorem C5_recycling_scenario :
    IdManagerInner.alloc_id IdManagerInner.new = .ok (1, ⟨2, []⟩) ∧
    IdManagerInner.alloc_id ⟨2, []⟩ = .ok (2, ⟨3, []⟩) ∧
    IdManagerInner.recycle_id 1 ⟨3, []⟩ = ⟨3, [1]⟩ ∧
    IdManagerInner.alloc_id ⟨3, [1]⟩ = .ok (1, ⟨3, []⟩) ∧
    IdManagerInner.recycle_id 2 ⟨3, []⟩ = ⟨2, []⟩ ∧
    IdManagerInner.recycle_id 1 ⟨2, []⟩ = ⟨1, []⟩ ∧
    IdManagerInner.alloc_id ⟨1, []⟩ = .ok (1, ⟨2, []⟩) :=
  ⟨rfl, rfl, rfl, rfl, rfl, rfl, rfl⟩

theorem take_getLast? (l : List Nat) (n : Nat) (h : n + 1 ≤ l.length) :
    (l.take (n + 1)).getLast? = some (l.getD n 0) := by
  induction l generalizing n with
  | nil => simp at h
  | cons a t ih =>
    cases n with
    | zero => simp
    | succ m =>
      have hm : m + 1 ≤ t.length := by simp at h; omega
      cases t with
      | nil => simp at hm
      | cons b t' =>
        rw [List.take_succ_cons, List.take_succ_cons, List.getLast?_cons_cons,
          ← List.take_succ_cons, ih _ hm, List.getD_cons_succ]

theorem drop_getD (l : List Nat) (m n : Nat) : (l.drop m).getD n 0 = l.getD (m + n) 0 := by
  induction l generalizing m n with
  | nil => simp
  | cons a t ih =>
    cases m with
    | zero => simp
    | succ k =>
      rw [List.drop_succ_cons, ih, Nat.succ_add, List.getD_cons_succ]

/-- C10: `String::decode` is not total: on any buffer whose first 4
bytes encode a length `L`, whose total length is at least `L + 5`, and
whose byte at offset `4 + L` is nonzero, the `assert!` on the NUL
terminator fails, so the function panics instead of returning a
`SerdeError`. -/
theorem C10_string_decode_panics (data : List Nat) (L : Nat)
    (hL : readU32 data = L) (hlen : L + 5 ≤ data.length)
    (hnz : data.getD (4 + L) 0 ≠ 0) :
    WString.decode data = .panic := by
  have hkey : ((data.drop 4).take (L + 1)).getLast? = some (data.getD (4 + L) 0) := by
    rw [take_getLast? _ L (by simp; omega), drop_getD]
  simp only [WString.decode, hL]
  rw [if_neg (by omega), if_neg (by omega),
    if_neg (by rw [hkey]; simp only [Option.some.injEq]; exact hnz)]

/-- Witness for `C10_string_decode_panics`: the buffer
`[1, 0, 0, 0, 65, 7]` declares length 1, has 6 ≥ 1 + 5 bytes, and its
byte at offset 5 is 7 ≠ 0, so decoding panics. -/
theorem C10_string_decode_panics_witness :
    WString.decode [1, 0, 0, 0, 65, 7] = .panic :=
  C10_string_decode_panics [1, 0, 0, 0, 65, 7] 1 (by decide) (by decide) (by decide)

/-- C8: `Coproduct<A, B>::try_decode` returns `A`'s message injected
left when `A` succeeds; falls through to `B` (injected right) exactly
on `UnknownInterface`; returns `UnknownOpcode`/`DecodeError` from `A`
unchanged (so `B` is never consulted — the result does not depend on
`dB`); and `CNil::try_decode` always returns
`UnknownInterface(interface)`. -/
theorem C8_coproduct_try_decode {α β : Type} (dA : TryDecode α) (dB : TryDecode β)
    (interface : String) (opcode : Nat) (data : List Nat) :
    (∀ a, dA interface opcode data = .ok a →
      Coproduct.try_decode dA dB interface opcode data = .ok (.Inl a)) ∧
    (∀ s, dA interface opcode data = .error (.UnknownInterface s) →
      Coproduct.try_decode dA dB interface opcode data =
        (dB interface opcode data).map Coproduct.Inr) ∧
    (∀ u, dA interface opcode data = .error (.UnknownOpcode u) →
      Coproduct.try_decode dA dB interface opcode data = .error (.UnknownOpcode u)) ∧
    (∀ e, dA interface opcode data = .error (.DecodeError e) →
      Coproduct.try_decode dA dB interface opcode data = .error (.DecodeError e)) ∧
    CNil.try_decode interface opcode data = .error (.UnknownInterface interface) := by
  refine ⟨?_, ?_, ?_, ?_, rfl⟩
  · intro a h
    simp [Coproduct.try_decode, h]
  · intro s h
    simp [Coproduct.try_decode, h]
  · intro u h
    simp [Coproduct.try_decode, h]
  · intro e h
    simp [Coproduct.try_decode, h]

/-- Witness for `C8_coproduct_try_decode`: concrete decoders
exercising the success case and the fall-through case. -/
theorem C8_coproduct_try_decode_witness :
    Coproduct.try_decode (α := Nat) (β := Nat) (fun _ _ _ => .ok 42)
      (fun _ _ _ => .ok 7) "wl_display" 0 [] = .ok (.Inl 42) ∧
    Coproduct.try_decode (α := Nat) (β := Nat)
      (fun i _ _ => .error (.UnknownInterface i))
      (fun _ _ _ => .ok 7) "wl_touch" 0 [] =
      (Except.ok 7).map Coproduct.Inr :=
  ⟨(C8_coproduct_try_decode (fun _ _ _ => .ok 42) (fun _ _ _ => .ok 7)
      "wl_display" 0 []).1 42 rfl,
   (C8_coproduct_try_decode (fun i _ _ => .error (.UnknownInterface i))
      (fun _ _ _ => .ok 7) "wl_touch" 0 []).2.1 "wl_touch" rfl⟩

/-! ### Round-trip helper lemmas for each wire type -/

theorem toU32_lt (v : Int) : toU32 v < 2 ^ 32 := by
  unfold toU32; omega

theorem asI32_toU32 (v : Int) (h1 : -(2 ^ 31) ≤ v) (h2 : v < 2 ^ 31) :
    asI32 (toU32 v) = v := by
  unfold asI32 toU32
  split <;> omega

theorem u32_roundtrip (v : Nat) (data : List Nat) (hv : v < 2 ^ 32)
    (hlen : 4 ≤ data.length) :
    u32_encode v data = .ok (u32LE v ++ data.drop 4, 4) ∧
    u32_decode (u32LE v ++ data.drop 4) = .ok v := by
  refine ⟨by rw [u32_encode, if_neg (by omega)], ?_⟩
  rw [u32_decode, if_neg (by simp only [List.length_append, u32LE_length]; omega),
    readU32_u32LE _ _ hv]

theorem i32_roundtrip (v : Int) (data : List Nat) (h1 : -(2 ^ 31) ≤ v)
    (h2 : v < 2 ^ 31) (hlen : 4 ≤ data.length) :
    i32_encode v data = .ok (u32LE (toU32 v) ++ data.drop 4, 4) ∧
    i32_decode (u32LE (toU32 v) ++ data.drop 4) = .ok v := by
  refine ⟨by rw [i32_encode, if_neg (by omega)], ?_⟩
  rw [i32_decode, if_neg (by simp only [List.length_append, u32LE_length]; omega),
    readU32_u32LE _ _ (toU32_lt v), asI32_toU32 v h1 h2]

theorem fixed_roundtrip (v : Fixed) (data : List Nat) (h1 : -(2 ^ 31) ≤ v.val)
    (h2 : v.val < 2 ^ 31) (hlen : 4 ≤ data.length) :
    Fixed.encode v data = .ok (u32LE (toU32 v.val) ++ data.drop 4, 4) ∧
    Fixed.decode (u32LE (toU32 v.val) ++ data.drop 4) = .ok v := by
  refine ⟨by rw [Fixed.encode, if_neg (by omega)], ?_⟩
  rw [Fixed.decode, if_neg (by simp only [List.length_append, u32LE_length]; omega),
    readU32_u32LE _ _ (toU32_lt v.val), asI32_toU32 v.val h1 h2]

theorem header_roundtrip (h : MessageHeader) (data : List Nat)
    (hObj : h.object_id < 2 ^ 32) (hOp : h.opcode < 2 ^ 16) (hSz : h.size < 2 ^ 16)
    (hLen : 8 ≤ data.length) :
    MessageHeader.encode h data =
      .ok (u32LE h.object_id ++ (u16LE h.opcode ++ (u16LE h.size ++ data.drop 8)), 8) ∧
    MessageHeader.decode
        (u32LE h.object_id ++ (u16LE h.opcode ++ (u16LE h.size ++ data.drop 8))) =
      .ok h := by
  constructor
  · simp only [MessageHeader.encode, MessageHeader.SIZE, MessageHeader.bytes]
    rw [if_neg (by omega)]
    simp [List.append_assoc]
  · simp only [MessageHeader.decode, MessageHeader.SIZE]
    rw [if_neg (by simp [u32LE, u16LE])]
    have h4 : (u32LE h.object_id ++ (u16LE h.opcode ++ (u16LE h.size ++ data.drop 8))).drop 4 =
        u16LE h.opcode ++ (u16LE h.size ++ data.drop 8) := rfl
    have h6 : (u32LE h.object_id ++ (u16LE h.opcode ++ (u16LE h.size ++ data.drop 8))).drop 6 =
        u16LE h.size ++ data.drop 8 := rfl
    rw [readU32_u32LE _ _ hObj, h4, h6, readU16_u16LE _ _ hOp, readU16_u16LE _ _ hSz]

theorem string_roundtrip (s : WString) (data : List Nat)
    (hutf : isValidUtf8 s.data = true) (hlt : s.data.length < 2 ^ 32)
    (hlen : s.size ≤ data.length) :
    WString.encode s data =
      .ok (u32LE (s.data.length % 2 ^ 32) ++ s.data ++ [0] ++ data.drop s.size, s.size) ∧
    WString.decode (u32LE (s.data.length % 2 ^ 32) ++ s.data ++ [0] ++ data.drop s.size) =
      .ok s := by
  have hsz : s.size = s.data.length + 5 := rfl
  constructor
  · rw [WString.encode, if_neg (by omega)]
  · have hdrop : (u32LE (s.data.length % 2 ^ 32) ++ s.data ++ [0] ++ data.drop s.size).drop 4 =
        s.data ++ [0] ++ data.drop s.size := rfl
    have hlength :
        (u32LE (s.data.length % 2 ^ 32) ++ s.data ++ [0] ++ data.drop s.size).length =
          data.length := by
      simp [u32LE]
      omega
    have hread : readU32 (u32LE (s.data.length % 2 ^ 32) ++ s.data ++ [0] ++ data.drop s.size) =
        s.data.length := by
      have : u32LE (s.data.length % 2 ^ 32) ++ s.data ++ [0] ++ data.drop s.size =
          u32LE (s.data.length % 2 ^ 32) ++ (s.data ++ [0] ++ data.drop s.size) := by
        simp [List.append_assoc]
      rw [this, readU32_u32LE _ _ (Nat.mod_lt _ (by norm_num)), Nat.mod_eq_of_lt hlt]
    simp only [WString.decode]
    rw [if_neg (by rw [hlength]; omega), hread, if_neg (by rw [hlength]; omega), hdrop]
    have htake : (s.data ++ [0] ++ data.drop s.size).take (s.data.length + 1) =
        s.data ++ [0] :=
      List.take_left' (by simp)
    rw [htake, if_pos (List.getLast?_concat s.data), List.take_left' rfl]
    rw [if_pos hutf]

theorem array_roundtrip (a : WArray) (data : List Nat)
    (hlt : a.data.length < 2 ^ 32) (hlen : a.size ≤ data.length) :
    WArray.encode a data =
      .ok (u32LE (a.data.length % 2 ^ 32) ++ a.data ++ data.drop a.size, a.size) ∧
    WArray.decode (u32LE (a.data.length % 2 ^ 32) ++ a.data ++ data.drop a.size) =
      .ok a := by
  have hsz : a.size = a.data.length + 4 := rfl
  constructor
  · rw [WArray.encode, if_neg (by omega)]
  · have hdrop : (u32LE (a.data.length % 2 ^ 32) ++ a.data ++ data.drop a.size).drop 4 =
        a.data ++ data.drop a.size := rfl
    have hlength :
        (u32LE (a.data.length % 2 ^ 32) ++ a.data ++ data.drop a.size).length =
          data.length := by
      simp [u32LE]
      omega
    have hread : readU32 (u32LE (a.data.length % 2 ^ 32) ++ a.data ++ data.drop a.size) =
        a.data.length := by
      have : u32LE (a.data.length % 2 ^ 32) ++ a.data ++ data.drop a.size =
          u32LE (a.data.length % 2 ^ 32) ++ (a.data ++ data.drop a.size) := by
        simp [List.append_assoc]
      rw [this, readU32_u32LE _ _ (Nat.mod_lt _ (by norm_num)), Nat.mod_eq_of_lt hlt]
    simp only [WArray.decode]
    rw [if_neg (by rw [hlength]; omega), hread, if_neg (by rw [hlength]; omega), hdrop,
      List.take_left' rfl]

theorem encoder_write_advance {α : Type} (c : WEncode α) (st : MessageEncoder) (v : α)
    (buf : List Nat) (n : Nat) (h : c.encode v (st.data.drop st.pos) = .ok (buf, n)) :
    MessageEncoder.write c st v =
      .ok ⟨st.data.take st.pos ++ buf, pad_to_32_bits (st.pos + c.size v)⟩ := by
  rw [MessageEncoder.write, h]

theorem decoder_read_advance {α : Type} (c : WDecode α) (st : MessageDecoder) (v : α)
    (h : c.decode (st.data.drop st.pos) = .ok v) :
    MessageDecoder.read c st = .ok (v, ⟨st.data, pad_to_32_bits (st.pos + c.size v)⟩) := by
  rw [MessageDecoder.read, h]

theorem pad_to_32_bits_spec (p : Nat) :
    p ≤ pad_to_32_bits p ∧ pad_to_32_bits p % 4 = 0 ∧ pad_to_32_bits p < p + 4 := by
  unfold pad_to_32_bits; omega

/-- C6: for every value of each wire type (u32, i32, Fixed,
MessageHeader, String with valid UTF-8 content, Array), encoding into
a sufficiently large buffer succeeds, returns exactly the
pre-alignment reported size (4 for the scalars, 8 for the header,
`4+L+1` for a string of byte length `L`, `4+L` for an array), and
decoding the written buffer returns the original value; and the
MessageEncoder/MessageDecoder cursor advances between adjacent fields
by the reported size rounded up to the next multiple of 4
(`pad_to_32_bits` being the least multiple of 4 not below its
argument). -/
theorem C6_roundtrip_size_alignment :
    (∀ v data, v < 2 ^ 32 → 4 ≤ data.length →
      u32_encode v data = .ok (u32LE v ++ data.drop 4, 4) ∧
      u32_decode (u32LE v ++ data.drop 4) = .ok v) ∧
    (∀ v data, -(2 ^ 31) ≤ v → v < 2 ^ 31 → 4 ≤ data.length →
      i32_encode v data = .ok (u32LE (toU32 v) ++ data.drop 4, 4) ∧
      i32_decode (u32LE (toU32 v) ++ data.drop 4) = .ok v) ∧
    (∀ v : Fixed, ∀ data, -(2 ^ 31) ≤ v.val → v.val < 2 ^ 31 → 4 ≤ data.length →
      Fixed.encode v data = .ok (u32LE (toU32 v.val) ++ data.drop 4, 4) ∧
      Fixed.decode (u32LE (toU32 v.val) ++ data.drop 4) = .ok v) ∧
    (∀ h : MessageHeader, ∀ data, h.object_id < 2 ^ 32 → h.opcode < 2 ^ 16 →
      h.size < 2 ^ 16 → 8 ≤ data.length →
      MessageHeader.encode h data =
        .ok (u32LE h.object_id ++ (u16LE h.opcode ++ (u16LE h.size ++ data.drop 8)), 8) ∧
      MessageHeader.decode
          (u32LE h.object_id ++ (u16LE h.opcode ++ (u16LE h.size ++ data.drop 8))) =
        .ok h) ∧
    (∀ s : WString, ∀ data, isValidUtf8 s.data = true → s.data.length < 2 ^ 32 →
      s.size ≤ data.length →
      WString.encode s data =
        .ok (u32LE (s.data.length % 2 ^ 32) ++ s.data ++ [0] ++ data.drop s.size, s.size) ∧
      WString.decode (u32LE (s.data.length % 2 ^ 32) ++ s.data ++ [0] ++ data.drop s.size) =
        .ok s) ∧
    (∀ a : WArray, ∀ data, a.data.length < 2 ^ 32 → a.size ≤ data.length →
      WArray.encode a data =
        .ok (u32LE (a.data.length % 2 ^ 32) ++ a.data ++ data.drop a.size, a.size) ∧
      WArray.decode (u32LE (a.data.length % 2 ^ 32) ++ a.data ++ data.drop a.size) =
        .ok a) ∧
    (∀ (α : Type) (c : WEncode α) (st : MessageEncoder) (v : α) (buf : List Nat) (n : Nat),
      c.encode v (st.data.drop st.pos) = .ok (buf, n) →
      MessageEncoder.write c st v =
        .ok ⟨st.data.take st.pos ++ buf, pad_to_32_bits (st.pos + c.size v)⟩) ∧
    (∀ (α : Type) (c : WDecode α) (st : MessageDecoder) (v : α),
      c.decode (st.data.drop st.pos) = .ok v →
      MessageDecoder.read c st = .ok (v, ⟨st.data, pad_to_32_bits (st.pos + c.size v)⟩)) ∧
    (∀ p, p ≤ pad_to_32_bits p ∧ pad_to_32_bits p % 4 = 0 ∧ pad_to_32_bits p < p + 4) :=
  ⟨u32_roundtrip, i32_roundtrip, fixed_roundtrip, header_roundtrip, string_roundtrip,
    array_roundtrip,
    fun _ c st v buf n h => encoder_write_advance c st v buf n h,
    fun _ c st v h => decoder_read_advance c st v h,
    pad_to_32_bits_spec⟩

/-- Witness for `C6_roundtrip_size_alignment`: each conjunct applied
at a concrete value. -/
theorem C6_roundtrip_size_alignment_witness :
    (u32_encode 19 (List.replicate 8 0) = .ok (u32LE 19 ++ (List.replicate 8 0).drop 4, 4) ∧
      u32_decode (u32LE 19 ++ (List.replicate 8 0).drop 4) = .ok 19) ∧
    (i32_encode (-8) (List.replicate 4 0) =
        .ok (u32LE (toU32 (-8)) ++ (List.replicate 4 0).drop 4, 4) ∧
      i32_decode (u32LE (toU32 (-8)) ++ (List.replicate 4 0).drop 4) = .ok (-8)) ∧
    (Fixed.encode ⟨-300⟩ (List.replicate 4 0) =
        .ok (u32LE (toU32 (Fixed.mk (-300)).val) ++ (List.replicate 4 0).drop 4, 4) ∧
      Fixed.decode (u32LE (toU32 (Fixed.mk (-300)).val) ++ (List.replicate 4 0).drop 4) =
        .ok ⟨-300⟩) ∧
    (MessageHeader.encode ⟨2, 1, 12⟩ (List.replicate 12 0) =
        .ok (u32LE (MessageHeader.mk 2 1 12).object_id ++
          (u16LE (MessageHeader.mk 2 1 12).opcode ++
            (u16LE (MessageHeader.mk 2 1 12).size ++ (List.replicate 12 0).drop 8)), 8) ∧
      MessageHeader.decode
          (u32LE (MessageHeader.mk 2 1 12).object_id ++
            (u16LE (MessageHeader.mk 2 1 12).opcode ++
              (u16LE (MessageHeader.mk 2 1 12).size ++ (List.replicate 12 0).drop 8))) =
        .ok ⟨2, 1, 12⟩) ∧
    (WString.encode ⟨[116, 101, 115, 116]⟩ (List.replicate 12 0) =
        .ok (u32LE ((WString.mk [116, 101, 115, 116]).data.length % 2 ^ 32) ++
          (WString.mk [116, 101, 115, 116]).data ++ [0] ++
          (List.replicate 12 0).drop (WString.mk [116, 101, 115, 116]).size,
          (WString.mk [116, 101, 115, 116]).size) ∧
      WString.decode (u32LE ((WString.mk [116, 101, 115, 116]).data.length % 2 ^ 32) ++
          (WString.mk [116, 101, 115, 116]).data ++ [0] ++
          (List.replicate 12 0).drop (WString.mk [116, 101, 115, 116]).size) =
        .ok ⟨[116, 101, 115, 116]⟩) ∧
    (WArray.encode ⟨[4, 4, 4, 4]⟩ (List.replicate 8 0) =
        .ok (u32LE ((WArray.mk [4, 4, 4, 4]).data.length % 2 ^ 32) ++
          (WArray.mk [4, 4, 4, 4]).data ++
          (List.replicate 8 0).drop (WArray.mk [4, 4, 4, 4]).size,
          (WArray.mk [4, 4, 4, 4]).size) ∧
      WArray.decode (u32LE ((WArray.mk [4, 4, 4, 4]).data.length % 2 ^ 32) ++
          (WArray.mk [4, 4, 4, 4]).data ++
          (List.replicate 8 0).drop (WArray.mk [4, 4, 4, 4]).size) =
        .ok ⟨[4, 4, 4, 4]⟩) ∧
    (MessageEncoder.write u32Encode ⟨List.replicate 8 0, 0⟩ 7 =
      .ok ⟨(List.replicate 8 0).take 0 ++ (u32LE 7 ++ ((List.replicate 8 0).drop 0).drop 4),
        pad_to_32_bits (0 + u32Encode.size 7)⟩) ∧
    (MessageDecoder.read u32Decode ⟨[7, 0, 0, 0], 0⟩ =
      .ok (7, ⟨[7, 0, 0, 0], pad_to_32_bits (0 + u32Decode.size 7)⟩)) ∧
    (3 ≤ pad_to_32_bits 3 ∧ pad_to_32_bits 3 % 4 = 0 ∧ pad_to_32_bits 3 < 3 + 4) :=
  ⟨C6_roundtrip_size_alignment.1 19 (List.replicate 8 0) (by decide) (by decide),
   C6_roundtrip_size_alignment.2.1 (-8) (List.replicate 4 0) (by decide) (by decide) (by decide),
   C6_roundtrip_size_alignment.2.2.1 ⟨-300⟩ (List.replicate 4 0) (by decide) (by decide)
     (by decide),
   C6_roundtrip_size_alignment.2.2.2.1 ⟨2, 1, 12⟩ (List.replicate 12 0) (by decide) (by decide)
     (by decide) (by decide),
   C6_roundtrip_size_alignment.2.2.2.2.1 ⟨[116, 101, 115, 116]⟩ (List.replicate 12 0)
     (by decide) (by decide) (by decide),
   C6_roundtrip_size_alignment.2.2.2.2.2.1 ⟨[4, 4, 4, 4]⟩ (List.replicate 8 0)
     (by decide) (by decide),
   C6_roundtrip_size_alignment.2.2.2.2.2.2.1 Nat u32Encode ⟨List.replicate 8 0, 0⟩ 7
     (u32LE 7 ++ ((List.replicate 8 0).drop 0).drop 4) 4 rfl,
   C6_roundtrip_size_alignment.2.2.2.2.2.2.2.1 Nat u32Decode ⟨[7, 0, 0, 0], 0⟩ 7 rfl,
   C6_roundtrip_size_alignment.2.2.2.2.2.2.2.2 3⟩

/-! ### The header prefix of an encoded message survives the field writes -/

theorem write_prefix {α : Type} (c : WEncode α) (st : MessageEncoder) (v : α)
    (st' : MessageEncoder) (h : MessageEncoder.write c st v = .ok st')
    (hpos : 8 ≤ st.pos) (hlen : 8 ≤ st.data.length) :
    st'.data.take 8 = st.data.take 8 ∧ 8 ≤ st'.pos ∧ 8 ≤ st'.data.length := by
  rw [MessageEncoder.write] at h
  cases henc : c.encode v (st.data.drop st.pos) with
  | error e => rw [henc] at h; exact absurd h (by simp)
  | ok p =>
    rw [henc] at h
    cases h
    refine ⟨?_, ?_, ?_⟩
    · show (st.data.take st.pos ++ p.1).take 8 = st.data.take 8
      rw [List.take_append_eq_append_take]
      have hl : (st.data.take st.pos).length = st.pos ⊓ st.data.length := by
        simp [List.length_take]
      have h8 : 8 ≤ (st.data.take st.pos).length := by
        rw [hl]; exact le_min hpos hlen
      rw [Nat.sub_eq_zero_of_le h8, List.take_zero, List.append_nil, List.take_take,
        min_eq_left (by omega : (8 : Nat) ≤ st.pos)]
    · show 8 ≤ pad_to_32_bits (st.pos + c.size v)
      have := pad_to_32_bits_spec (st.pos + c.size v)
      omega
    · show 8 ≤ (st.data.take st.pos ++ p.1).length
      simp only [List.length_append, List.length_take]
      omega

theorem header_write_ok (hdr : MessageHeader) (data : List Nat) (st1 : MessageEncoder)
    (h : MessageEncoder.write headerEncode ⟨data, 0⟩ hdr = .ok st1) :
    st1.data.take 8 = hdr.bytes ∧ st1.pos = 8 ∧ 8 ≤ st1.data.length := by
  rw [MessageEncoder.write] at h
  by_cases hlen : data.length < 8
  · rw [show headerEncode.encode hdr ((MessageEncoder.mk data 0).data.drop 0) =
        .error .InvalidSize by
      simp [headerEncode, MessageHeader.encode, MessageHeader.SIZE]
      omega] at h
    exact absurd h (by simp)
  · rw [show headerEncode.encode hdr ((MessageEncoder.mk data 0).data.drop 0) =
        .ok (hdr.bytes ++ data.drop 8, 8) by
      simp [headerEncode, MessageHeader.encode, MessageHeader.SIZE, if_neg hlen]] at h
    cases h
    have hbl : hdr.bytes.length = 8 := by
      simp [MessageHeader.bytes, u32LE, u16LE]
    refine ⟨?_, by show pad_to_32_bits (0 + headerEncode.size hdr) = 8
                   simp [headerEncode, pad_to_32_bits, MessageHeader.SIZE], ?_⟩
    · show ((List.take 0 data) ++ (hdr.bytes ++ data.drop 8)).take 8 = hdr.bytes
      simp only [List.take_zero, List.nil_append]
      exact List.take_left' hbl
    · show 8 ≤ ((List.take 0 data) ++ (hdr.bytes ++ data.drop 8)).length
      simp only [List.take_zero, List.nil_append, List.length_append, hbl]
      omega

/-- C2 counterexample: a message with a single string argument of
length 4 (`"test"`, reported size 9). `encode_message` writes size
field `8 + 9 = 17` into the header, while the claim's formula
`8 + pad_to_32_bits(9) = 20` demands 20: the per-field sizes are not
rounded up when the header's size field is computed. -/
theorem C2_counterexample :
    encode_message generatedMessage [Field.stringF ⟨[116, 101, 115, 116]⟩] 1 0
        (List.replicate 24 0) =
      .ok ([1, 0, 0, 0, 0, 0, 17, 0, 4, 0, 0, 0, 116, 101, 115, 116, 0, 0, 0, 0, 0, 0, 0, 0],
        20) ∧
    readU16 ([1, 0, 0, 0, 0, 0, 17, 0, 4, 0, 0, 0, 116, 101, 115, 116, 0, 0, 0, 0, 0, 0, 0,
        0].drop 6) = 17 ∧
    MessageHeader.SIZE +
        pad_to_32_bits (Field.fieldSize (Field.stringF ⟨[116, 101, 115, 116]⟩)) = 20 ∧
    (17 : Nat) ≠ 20 :=
  ⟨rfl, rfl, rfl, by decide⟩

/-- C2 (amended): the size field `encode_message` writes into the wire
header equals `(8 + messageSize) mod 2^16`, where `messageSize` is the
sum of the per-field reported sizes of the message's members
**without** per-field alignment rounding (strings contribute `L+5`,
arrays `L+4`); FD arguments (unit placeholders in the struct)
contribute 0 bytes. -/
theorem C2_size_field (fs : List Field) (object_id opcode : Nat)
    (data buf : List Nat) (n : Nat)
    (henc : encode_message generatedMessage fs object_id opcode data = .ok (buf, n)) :
    (buf.take 8).drop 6 = u16LE ((MessageHeader.SIZE + messageSize fs) % 2 ^ 16) ∧
    (∀ f ∈ fs, f.isFd = true → f.fieldSize = 0) := by
  constructor
  · rw [encode_message] at henc
    split at henc
    · exact absurd henc (by simp)
    · rename_i st1 hw1
      split at henc
      · exact absurd henc (by simp)
      · rename_i st2 hw2
        simp only [Except.ok.injEq, Prod.mk.injEq] at henc
        obtain ⟨hbuf, -⟩ := henc
        subst hbuf
        obtain ⟨hh1, hh2, hh3⟩ := header_write_ok _ data st1 hw1
        obtain ⟨hp1, -, -⟩ := write_prefix generatedMessage st1 fs st2 hw2 (by omega) hh3
        rw [hp1, hh1]
        rfl
  · intro f hf hfd
    cases f <;> simp_all [Field.isFd, Field.fieldSize]

/-- Witness for `C2_size_field`: a single-u32 message encoded at
object 1, opcode 0 carries size field `(8 + 4) mod 2^16 = 12`. -/
theorem C2_size_field_witness :
    (([1, 0, 0, 0, 0, 0, 12, 0, 7, 0, 0, 0] : List Nat).take 8).drop 6 =
      u16LE ((MessageHeader.SIZE + messageSize [Field.uintF 7]) % 2 ^ 16) ∧
    (∀ f ∈ [Field.uintF 7], f.isFd = true → f.fieldSize = 0) :=
  C2_size_field [Field.uintF 7] 1 0 (List.replicate 12 0)
    [1, 0, 0, 0, 0, 0, 12, 0, 7, 0, 0, 0] 12 rfl

/-- C3 (the generator evaluated at the deciding inputs): the
`compile_time_size` branch of `build_message` emits a
`CompileTimeMessageSize` impl exactly when
`is_size_known_at_compile_time` is FALSE — inverted relative to the
claim. For a message with a `string` argument (like `wl_display::error`)
an impl is emitted whose `SIZE` expression names the nonexistent
constant `String::SIZE` (`some none`: the generated code cannot
compile); for an all-fixed-width message no impl is emitted (`none`);
for a message with a dynamically typed `new_id` (like
`wl_registry::bind`) the emitted constant counts that argument as
`u32::SIZE`, giving `SIZE = 8`, which differs from the runtime size 17
of a value whose interface string is empty. -/
theorem C3_compile_time_size_inverted :
    is_size_known_at_compile_time
        (argsWithSize [⟨"object", none⟩, ⟨"uint", none⟩, ⟨"string", none⟩]) = false ∧
    emittedCompileTimeSize [⟨"object", none⟩, ⟨"uint", none⟩, ⟨"string", none⟩] =
      some none ∧
    is_size_known_at_compile_time (argsWithSize [⟨"uint", none⟩]) = true ∧
    emittedCompileTimeSize [⟨"uint", none⟩] = none ∧
    emittedCompileTimeSize [⟨"uint", none⟩, ⟨"new_id", none⟩] = some (some 8) ∧
    messageSize [Field.uintF 1, Field.dynNewIdF ⟨⟨[]⟩, 1, 2⟩] = 17 ∧
    (8 : Nat) ≠ 17 :=
  ⟨rfl, rfl, rfl, rfl, rfl, rfl, by decide⟩

/-! ### Fixed-point conversion lemmas -/

/-- The arithmetic right shift by 8 on `Int` is floor division by 256. -/
theorem shiftRight_eq_fdiv (v : Int) : v >>> (8 : Nat) = Int.fdiv v 256 := by
  cases v with
  | ofNat n =>
    show Int.ofNat (n >>> 8) = _
    rw [Nat.shiftRight_eq_div_pow]
    rcases n with _ | m
    · rfl
    · rfl
  | negSucc n =>
    show Int.negSucc (n >>> 8) = _
    rw [Nat.shiftRight_eq_div_pow]
    rfl

theorem satI32_eq (x : Int) (h1 : -(2 ^ 31) ≤ x) (h2 : x ≤ 2 ^ 31 - 1) :
    satI32 x = x := by
  unfold satI32
  omega

theorem roundHalfAway_close (x : ℚ) : |(roundHalfAway x : ℚ) - x| ≤ 1 / 2 := by
  unfold roundHalfAway
  split
  · rename_i h
    have h1 := Int.floor_le (x + 1 / 2)
    have h2 := Int.lt_floor_add_one (x + 1 / 2)
    rw [abs_le]
    constructor <;> push_cast at h1 h2 ⊢ <;> linarith
  · rename_i h
    have h1 := Int.le_ceil (x - 1 / 2)
    have h2 := Int.ceil_lt_add_one (x - 1 / 2)
    rw [abs_le]
    constructor <;> push_cast at h1 h2 ⊢ <;> linarith

theorem roundHalfAway_intCast (m : Int) : roundHalfAway (m : ℚ) = m := by
  unfold roundHalfAway
  split
  · rw [show ((m : ℚ) + 1 / 2) = 1 / 2 + (m : ℚ) by ring, Int.floor_add_int]
    norm_num
  · rw [show ((m : ℚ) - 1 / 2) = -(1 / 2) + (m : ℚ) by ring, Int.ceil_add_int]
    norm_num

theorem roundHalfAway_nearest (x : ℚ) (k : Int) :
    |(roundHalfAway x : ℚ) - x| ≤ |(k : ℚ) - x| := by
  by_cases hk : k = roundHalfAway x
  · rw [hk]
  · have h1 : (1 : ℚ) ≤ |(k : ℚ) - (roundHalfAway x : ℚ)| := by
      have : (1 : ℤ) ≤ |k - roundHalfAway x| := Int.one_le_abs (by omega)
      calc (1 : ℚ) = ((1 : ℤ) : ℚ) := by norm_num
        _ ≤ ((|k - roundHalfAway x| : ℤ) : ℚ) := by exact_mod_cast this
        _ = |(k : ℚ) - (roundHalfAway x : ℚ)| := by push_cast; ring_nf
    have h2 := roundHalfAway_close x
    have h3 : |(k : ℚ) - (roundHalfAway x : ℚ)| ≤ |(k : ℚ) - x| + |x - (roundHalfAway x : ℚ)| :=
      abs_sub_le _ _ _
    rw [abs_sub_comm x] at h3
    linarith

theorem roundHalfAway_ties_away (x : ℚ)
    (h : |(roundHalfAway x : ℚ) - x| = 1 / 2) :
    |x| ≤ |(roundHalfAway x : ℚ)| := by
  unfold roundHalfAway at h ⊢
  split at h
  · rename_i hx
    have h1 := Int.floor_le (x + 1 / 2)
    have h2 := Int.lt_floor_add_one (x + 1 / 2)
    rw [if_pos hx]
    have heq : (⌊x + 1 / 2⌋ : ℚ) - x = 1 / 2 := by
      rcases abs_eq (by norm_num : (0 : ℚ) ≤ 1 / 2) |>.mp h with h' | h'
      · exact h'
      · push_cast at h1 h2; linarith
    rw [abs_of_nonneg hx, abs_of_nonneg (by linarith : (0 : ℚ) ≤ (⌊x + 1 / 2⌋ : ℚ))]
    linarith
  · rename_i hx
    push_neg at hx
    have h1 := Int.le_ceil (x - 1 / 2)
    have h2 := Int.ceil_lt_add_one (x - 1 / 2)
    rw [if_neg (not_le.mpr hx)]
    have heq : (⌈x - 1 / 2⌉ : ℚ) - x = -(1 / 2) := by
      rcases abs_eq (by norm_num : (0 : ℚ) ≤ 1 / 2) |>.mp h with h' | h'
      · push_cast at h1 h2; linarith
      · exact h'
    rw [abs_of_neg hx, abs_of_nonpos (by linarith : (⌈x - 1 / 2⌉ : ℚ) ≤ 0)]
    linarith

/-- C7 counterexample: the stored representation `-1` (the fixed-point
value `-1/256`) converts to `i32` as `-1 / 256 = 0` (Rust `i32`
division truncates toward zero), whereas the claimed arithmetic right
shift gives `-1 >> 8 = -1`. -/
theorem C7_counterexample :
    Fixed.toI32 ⟨-1⟩ = 0 ∧ ((-1 : Int) >>> (8 : Nat)) = -1 ∧ (0 : Int) ≠ -1 := by
  refine ⟨by decide, by decide, by decide⟩

/-- C7 (amended): conversion of `Fixed` to unsigned integer targets
uses the arithmetic right shift by 8 (then a truncating cast), but
conversion to signed targets uses `value.0 / 256`, truncating division
toward zero; the two agree exactly on non-negative values and on
multiples of 256. Conversion from an integer `n` (routed through
`f64`) yields representation `n * 256` (an arithmetic left shift by 8
whenever it does not overflow), and conversion from a floating-point
value rounds to the nearest representable fixed-point value with ties
away from zero. -/
theorem C7_fixed_conversions (v : Int) (q : ℚ) (n : Int)
    (hn1 : -(2 ^ 23) < n) (hn2 : n < 2 ^ 23) (hq : |q| ≤ 2 ^ 22) :
    Fixed.toI32 ⟨v⟩ = Int.tdiv v 256 ∧
    (0 ≤ v → Fixed.toI32 ⟨v⟩ = v >>> (8 : Nat)) ∧
    ((256 : Int) ∣ v → Fixed.toI32 ⟨v⟩ = v >>> (8 : Nat)) ∧
    Fixed.toU32 ⟨v⟩ = toU32 (v >>> (8 : Nat)) ∧
    Fixed.fromInt n = ⟨n * 256⟩ ∧
    (Fixed.fromFloat q).val = roundHalfAway (q * 256) ∧
    |(roundHalfAway (q * 256) : ℚ) - q * 256| ≤ 1 / 2 ∧
    (∀ k : Int, |(roundHalfAway (q * 256) : ℚ) - q * 256| ≤ |(k : ℚ) - q * 256|) ∧
    (|(roundHalfAway (q * 256) : ℚ) - q * 256| = 1 / 2 →
      |q * 256| ≤ |(roundHalfAway (q * 256) : ℚ)|) := by
  have hsat : ∀ x : ℚ, |x| ≤ 2 ^ 30 → satI32 (roundHalfAway x) = roundHalfAway x := by
    intro x hx
    have hclose := roundHalfAway_close x
    have habs : |(roundHalfAway x : ℚ)| ≤ 2 ^ 30 + 1 / 2 := by
      have := abs_sub_abs_le_abs_sub (roundHalfAway x : ℚ) x
      linarith
    have hlt : |roundHalfAway x| ≤ 2 ^ 31 - 1 := by
      have : ((|roundHalfAway x| : ℤ) : ℚ) ≤ 2 ^ 30 + 1 / 2 := by
        push_cast
        exact habs
      have h31 : ((|roundHalfAway x| : ℤ) : ℚ) ≤ ((2 ^ 31 - 1 : ℤ) : ℚ) := by
        push_cast
        linarith
      exact_mod_cast h31
    rw [abs_le] at hlt
    exact satI32_eq _ (by omega) hlt.2
  refine ⟨rfl, ?_, ?_, rfl, ?_, ?_, roundHalfAway_close (q * 256),
    roundHalfAway_nearest (q * 256), roundHalfAway_ties_away (q * 256)⟩
  · intro hv
    rw [shiftRight_eq_fdiv, Fixed.toI32, Int.tdiv_eq_ediv hv (by norm_num),
      Int.fdiv_eq_ediv _ (by norm_num)]
  · intro hdvd
    rw [shiftRight_eq_fdiv, Fixed.toI32, Int.tdiv_eq_ediv_of_dvd hdvd]
    obtain ⟨k, rfl⟩ := hdvd
    rw [Int.mul_fdiv_cancel_left _ (by norm_num), Int.mul_ediv_cancel_left _ (by norm_num)]
  · rw [Fixed.fromInt, Fixed.fromFloat]
    have : ((n : ℚ) * 256) = ((n * 256 : ℤ) : ℚ) := by push_cast; ring
    rw [this, roundHalfAway_intCast]
    have : satI32 (n * 256) = n * 256 := satI32_eq _ (by omega) (by omega)
    rw [this]
  · show satI32 (roundHalfAway (q * 256)) = roundHalfAway (q * 256)
    refine hsat (q * 256) ?_
    rw [abs_mul, abs_of_nonneg (by norm_num : (0 : ℚ) ≤ 256)]
    linarith

/-- Witness for `C7_fixed_conversions` at representation `-513`, float
input `3/512` (whose scaled value `3/2` is a tie, rounded away from
zero) and integer input `54`. -/
theorem C7_fixed_conversions_witness :
    Fixed.toI32 ⟨-513⟩ = Int.tdiv (-513) 256 ∧
    (0 ≤ (-513 : Int) → Fixed.toI32 ⟨-513⟩ = (-513 : Int) >>> (8 : Nat)) ∧
    ((256 : Int) ∣ (-513 : Int) → Fixed.toI32 ⟨-513⟩ = (-513 : Int) >>> (8 : Nat)) ∧
    Fixed.toU32 ⟨-513⟩ = toU32 ((-513 : Int) >>> (8 : Nat)) ∧
    Fixed.fromInt 54 = ⟨54 * 256⟩ ∧
    (Fixed.fromFloat (3 / 512)).val = roundHalfAway (3 / 512 * 256) ∧
    |(roundHalfAway ((3 : ℚ) / 512 * 256) : ℚ) - 3 / 512 * 256| ≤ 1 / 2 ∧
    (∀ k : Int, |(roundHalfAway ((3 : ℚ) / 512 * 256) : ℚ) - 3 / 512 * 256| ≤
      |(k : ℚ) - 3 / 512 * 256|) ∧
    (|(roundHalfAway ((3 : ℚ) / 512 * 256) : ℚ) - 3 / 512 * 256| = 1 / 2 →
      |(3 : ℚ) / 512 * 256| ≤ |(roundHalfAway ((3 : ℚ) / 512 * 256) : ℚ)|) :=
  C7_fixed_conversions (-513) (3 / 512) 54 (by decide) (by decide)
    (by rw [abs_of_nonneg (by norm_num : (0 : ℚ) ≤ 3 / 512)]; norm_num)

/-! ### Interface-map registration ordering -/

theorem mapLookup_mapInsert_self (k : Nat) (v : String) (m : List (Nat × String)) :
    mapLookup k (mapInsert k v m) = some v := by
  induction m with
  | nil => simp [mapInsert, mapLookup]
  | cons p rest ih =>
    obtain ⟨k', v'⟩ := p
    by_cases h : k = k'
    · simp [mapInsert, mapLookup, h]
    · simp [mapInsert, mapLookup, h, ih]

/-- `peek_next_id` returns exactly the id the next `alloc_id` returns:
both select the heap minimum when it is below `next`, else `next`. -/
theorem peek_alloc_agree (st : IdManagerInner) (id : Nat) (st' : IdManagerInner)
    (h : st.alloc_id = .ok (id, st')) : st.peek_next_id = .ok id := by
  rw [IdManagerInner.alloc_id] at h
  rw [IdManagerInner.peek_next_id]
  split at h
  · exact absurd h (by simp)
  · rename_i hguard
    rw [if_neg hguard]
    split at h
    · rename_i free_id heq
      split at h
      · rename_i hlt
        rw [if_pos hlt]
        cases h
        rfl
      · rename_i hlt
        rw [if_neg hlt]
        cases h
        rfl
    · rename_i heq
      cases h
      rfl

/-- C9: in the generated request-method body for a statically typed
`new_id` of interface `name`, the entry `(new id → name)` is inserted
into the shared interface map by `register_interface` BEFORE the id is
allocated and before anything is enqueued on the write channel; the id
recorded (via `peek_next_id`) equals the id subsequently allocated;
the entry is still present when the single request message is
enqueued. Concretely, a fresh connection gives the display id 1 with
map `{1 → "wl_display"}`, and `registry()` allocates id 2 and inserts
`2 → "wl_registry"` before the `get_registry` bytes are enqueued. -/
theorem C9_interface_registered_before_send (name : String)
    (mkMsg : Nat → RequestMessage) (st : ClientState) (id : Nat) (stF : ClientState)
    (h : requestMethodBody name mkMsg st = .ok (id, stF)) :
    st.idm.peek_next_id = .ok id ∧
    (∃ st1, register_interface name st = .ok st1 ∧
      mapLookup id st1.interface_map = some name ∧
      st1.sent = st.sent) ∧
    mapLookup id stF.interface_map = some name ∧
    stF.sent = st.sent ++ [mkMsg id] ∧
    (∃ dst, displayConnectionNew = .ok (1, dst) ∧
      mapLookup 1 dst.interface_map = some "wl_display" ∧
      ∃ rst, wlDisplayRegistry 1 dst = .ok (2, rst) ∧
        mapLookup 2 rst.interface_map = some "wl_registry" ∧
        rst.sent = [⟨[], get_registry_buffer 1 2⟩]) := by
  rw [requestMethodBody] at h
  cases hco : create_object name st with
  | error e => rw [hco] at h; exact absurd h (by simp)
  | ok p =>
    obtain ⟨id0, st1⟩ := p
    rw [hco] at h
    have h' : Except.ok (id0, send_request (mkMsg id0) st1) = Except.ok (id, stF) := h
    cases h'
    rw [create_object] at hco
    cases hreg : register_interface name st with
    | error e => rw [hreg] at hco; exact absurd hco (by simp)
    | ok st1' =>
      rw [hreg] at hco
      have hco2 : (match st1'.idm.alloc_id with
          | Except.error e => Except.error e
          | Except.ok (id, idm') =>
            Except.ok (id, { st1' with idm := idm' })) = Except.ok (id, st1) := hco
      cases halloc : st1'.idm.alloc_id with
      | error e => rw [halloc] at hco2; exact absurd hco2 (by simp)
      | ok q =>
        obtain ⟨idA, idm'⟩ := q
        rw [halloc] at hco2
        have hco' : Except.ok (idA, { st1' with idm := idm' }) = Except.ok (id, st1) := hco2
        cases hco'
        rw [register_interface] at hreg
        cases hpeek : st.idm.peek_next_id with
        | error e => rw [hpeek] at hreg; exact absurd hreg (by simp)
        | ok new_id =>
          rw [hpeek] at hreg
          have hreg' : Except.ok
              ({ st with interface_map := mapInsert new_id name st.interface_map }) =
              Except.ok st1' := hreg
          cases hreg'
          have halloc' : st.idm.alloc_id = .ok (id, idm') := halloc
          have hp := peek_alloc_agree st.idm id idm' halloc'
          have hnew : new_id = id := by
            rw [hp] at hpeek
            exact (Except.ok.injEq _ _).mp hpeek.symm
          subst hnew
          refine ⟨rfl, ⟨⟨st.idm, mapInsert new_id name st.interface_map, st.sent⟩, rfl,
              mapLookup_mapInsert_self new_id name st.interface_map, rfl⟩,
            mapLookup_mapInsert_self new_id name st.interface_map, rfl, ?_⟩
          exact ⟨⟨⟨2, []⟩, [(1, "wl_display")], []⟩, rfl, rfl,
            ⟨⟨⟨3, []⟩, [(1, "wl_display"), (2, "wl_registry")],
              [⟨[], get_registry_buffer 1 2⟩]⟩, rfl, rfl, rfl⟩⟩

/-- Witness for `C9_interface_registered_before_send`: a fresh shared
state, interface name `"wl_seat"`, and a message builder recording the
allocated id. -/
theorem C9_interface_registered_before_send_witness :
    (ClientState.mk IdManagerInner.new [] []).idm.peek_next_id = .ok 1 ∧
    (∃ st1, register_interface "wl_seat" ⟨IdManagerInner.new, [], []⟩ = .ok st1 ∧
      mapLookup 1 st1.interface_map = some "wl_seat" ∧
      st1.sent = (ClientState.mk IdManagerInner.new [] []).sent) ∧
    mapLookup 1 (ClientState.mk ⟨2, []⟩ [(1, "wl_seat")]
      [⟨[], [1]⟩]).interface_map = some "wl_seat" ∧
    (ClientState.mk ⟨2, []⟩ [(1, "wl_seat")] [⟨[], [1]⟩]).sent =
      (ClientState.mk IdManagerInner.new [] []).sent ++ [⟨[], [1]⟩] ∧
    (∃ dst, displayConnectionNew = .ok (1, dst) ∧
      mapLookup 1 dst.interface_map = some "wl_display" ∧
      ∃ rst, wlDisplayRegistry 1 dst = .ok (2, rst) ∧
        mapLookup 2 rst.interface_map = some "wl_registry" ∧
        rst.sent = [⟨[], get_registry_buffer 1 2⟩]) :=
  C9_interface_registered_before_send "wl_seat" (fun i => ⟨[], [i]⟩)
    ⟨IdManagerInner.new, [], []⟩ 1 ⟨⟨2, []⟩, [(1, "wl_seat")], [⟨[], [1]⟩]⟩ rfl

/-! ### The id-manager safety invariant -/

/-- The joint invariant of the id-manager state and the bookkeeping
list `outs` of outstanding ids, maintained by well-formed traces. -/
structure IdInv (st : IdManagerInner) (outs : List Nat) : Prop where
  sorted : st.free_list.Pairwise (· < ·)
  free_lb : ∀ x ∈ st.free_list, CLIENT_MIN_ID ≤ x
  free_ub : ∀ x ∈ st.free_list, x < st.next
  outs_lb : ∀ x ∈ outs, CLIENT_MIN_ID ≤ x
  outs_ub : ∀ x ∈ outs, x < st.next
  disj : ∀ x ∈ st.free_list, x ∉ outs
  nodup : outs.Nodup
  next_lb : CLIENT_MIN_ID ≤ st.next
  next_ub : st.next ≤ CLIENT_MAX_ID + 1

theorem heapPush_mem (id x : Nat) (l : List Nat) :
    x ∈ heapPush id l ↔ x = id ∨ x ∈ l := by
  induction l with
  | nil => simp [heapPush]
  | cons a t ih =>
    rw [heapPush]
    split
    · simp [List.mem_cons]
      try tauto
    · simp [List.mem_cons, ih]
      try tauto

theorem heapPush_sorted (id : Nat) (l : List Nat) (hs : l.Pairwise (· < ·))
    (hid : id ∉ l) : (heapPush id l).Pairwise (· < ·) := by
  induction l with
  | nil => simp [heapPush]
  | cons a t ih =>
    rw [heapPush]
    rw [List.pairwise_cons] at hs
    obtain ⟨ha, ht⟩ := hs
    simp only [List.mem_cons, not_or] at hid
    obtain ⟨hne, hnt⟩ := hid
    split
    · rename_i hle
      refine List.Pairwise.cons ?_ (List.Pairwise.cons ha ht)
      intro y hy
      rcases List.mem_cons.mp hy with rfl | hy'
      · omega
      · have := ha y hy'
        omega
    · rename_i hle
      refine List.Pairwise.cons ?_ (ih ht hnt)
      intro y hy
      rcases (heapPush_mem id y t).mp hy with rfl | hy'
      · omega
      · exact ha y hy'

theorem head?_mem {l : List Nat} {a : Nat} (h : l.head? = some a) : a ∈ l := by
  cases l with
  | nil => simp at h
  | cons b t =>
    simp only [List.head?_cons, Option.some.injEq] at h
    exact h ▸ List.mem_cons_self b t

theorem sweepTail_spec (l : List Nat) :
    ∀ (n : Nat) (outs : List Nat),
      l.Pairwise (· < ·) →
      (∀ x ∈ l, CLIENT_MIN_ID ≤ x) →
      (∀ x ∈ l, x < n) →
      (∀ x ∈ l, x ∉ outs) →
      (∀ x ∈ outs, x < n) →
      CLIENT_MIN_ID ≤ n →
      (sweepTail n l).2.Pairwise (· < ·) ∧
      (∀ x ∈ (sweepTail n l).2, CLIENT_MIN_ID ≤ x) ∧
      (∀ x ∈ (sweepTail n l).2, x < (sweepTail n l).1) ∧
      (∀ x ∈ (sweepTail n l).2, x ∉ outs) ∧
      (∀ x ∈ outs, x < (sweepTail n l).1) ∧
      CLIENT_MIN_ID ≤ (sweepTail n l).1 ∧
      (sweepTail n l).1 ≤ n := by
  induction l with
  | nil =>
    intro n outs _ _ _ _ houts hn
    rw [sweepTail]
    exact ⟨List.Pairwise.nil, by simp, by simp, by simp, houts, hn, le_refl n⟩
  | cons top rest ih =>
    intro n outs hs hlb hub hdisj houts hn
    rw [sweepTail]
    split
    · rename_i htop
      rw [List.pairwise_cons] at hs
      obtain ⟨htr, hrs⟩ := hs
      have h1 := ih (n - 1) outs hrs
        (fun x hx => hlb x (List.mem_cons_of_mem _ hx))
        (fun x hx => by have := htr x hx; have := hub x (List.mem_cons_of_mem _ hx); omega)
        (fun x hx => hdisj x (List.mem_cons_of_mem _ hx))
        (fun x hx => by
          have hxn := houts x hx
          have hne : x ≠ top := fun he => hdisj top (List.mem_cons_self _ _) (he ▸ hx)
          omega)
        (by have := hlb top (List.mem_cons_self _ _); omega)
      refine ⟨h1.1, h1.2.1, h1.2.2.1, h1.2.2.2.1, h1.2.2.2.2.1, h1.2.2.2.2.2.1, ?_⟩
      have := h1.2.2.2.2.2.2
      omega
    · exact ⟨hs, hlb, hub, hdisj, houts, hn, le_refl n⟩

theorem alloc_id_spec (st : IdManagerInner) (outs : List Nat) (hinv : IdInv st outs)
    (id : Nat) (st' : IdManagerInner) (h : st.alloc_id = .ok (id, st')) :
    (CLIENT_MIN_ID ≤ id ∧ id ≤ CLIENT_MAX_ID ∧ id ∉ outs) ∧ IdInv st' (id :: outs) := by
  rw [IdManagerInner.alloc_id] at h
  cases hl : st.free_list with
  | nil =>
    rw [hl] at h
    simp only [List.head?_nil, List.isEmpty_nil, Bool.and_true] at h
    split at h
    · exact absurd h (by simp)
    · rename_i hguard
      rw [decide_eq_true_eq] at hguard
      have h' : (Except.ok (st.next, (⟨st.next + 1, []⟩ : IdManagerInner)) :
          Except IdManagerError (Nat × IdManagerInner)) = Except.ok (id, st') := h
      cases h'
      have hmax : st.next ≤ CLIENT_MAX_ID := by omega
      refine ⟨⟨hinv.next_lb, hmax, fun hmem => by
        have := hinv.outs_ub st.next hmem
        omega⟩, ?_⟩
      refine ⟨by simp, by simp, by simp, ?_, ?_, by simp, ?_, ?_, ?_⟩
      · intro x hx
        rcases List.mem_cons.mp hx with rfl | hx'
        · exact hinv.next_lb
        · exact hinv.outs_lb x hx'
      · intro x hx
        show x < st.next + 1
        rcases List.mem_cons.mp hx with rfl | hx'
        · omega
        · have := hinv.outs_ub x hx'
          omega
      · refine List.Nodup.cons ?_ hinv.nodup
        intro hmem
        have := hinv.outs_ub st.next hmem
        omega
      · show CLIENT_MIN_ID ≤ st.next + 1
        have := hinv.next_lb
        omega
      · show st.next + 1 ≤ CLIENT_MAX_ID + 1
        omega
  | cons a t =>
    rw [hl] at h
    simp only [List.head?_cons, List.isEmpty_cons, Bool.and_false] at h
    have hmemA : a ∈ st.free_list := hl ▸ List.mem_cons_self a t
    have haub := hinv.free_ub a hmemA
    have halb := hinv.free_lb a hmemA
    rw [if_neg (by simp)] at h
    rw [if_pos haub] at h
    have h' : (Except.ok (a, (⟨st.next, t⟩ : IdManagerInner)) :
        Except IdManagerError (Nat × IdManagerInner)) = Except.ok (id, st') := h
    cases h'
    have hsorted := hinv.sorted
    rw [hl, List.pairwise_cons] at hsorted
    obtain ⟨hat, hts⟩ := hsorted
    refine ⟨⟨halb, by have := hinv.next_ub; omega, hinv.disj id hmemA⟩, ?_⟩
    refine ⟨hts, ?_, ?_, ?_, ?_, ?_, ?_, hinv.next_lb, hinv.next_ub⟩
    · intro x hx
      exact hinv.free_lb x (hl ▸ List.mem_cons_of_mem id hx)
    · intro x hx
      show x < st.next
      exact hinv.free_ub x (hl ▸ List.mem_cons_of_mem id hx)
    · intro x hx
      rcases List.mem_cons.mp hx with rfl | hx'
      · exact halb
      · exact hinv.outs_lb x hx'
    · intro x hx
      show x < st.next
      rcases List.mem_cons.mp hx with rfl | hx'
      · exact haub
      · exact hinv.outs_ub x hx'
    · intro x hx hmem
      rcases List.mem_cons.mp hmem with rfl | hmem'
      · have := hat x hx
        omega
      · exact hinv.disj x (hl ▸ List.mem_cons_of_mem id hx) hmem'
    · refine List.Nodup.cons ?_ hinv.nodup
      exact hinv.disj id hmemA

theorem recycle_id_spec (st : IdManagerInner) (outs : List Nat) (id : Nat)
    (hinv : IdInv st outs) (hid : id ∈ outs) :
    IdInv (IdManagerInner.recycle_id id st) (outs.erase id) := by
  have hidlt := hinv.outs_ub id hid
  have hidlb := hinv.outs_lb id hid
  rw [IdManagerInner.recycle_id]
  split
  · rename_i heq
    have hnext : st.next = id + 1 := by omega
    have hsweep := sweepTail_spec st.free_list (st.next - 1) (outs.erase id)
      hinv.sorted hinv.free_lb
      (fun x hx => by
        have hxub := hinv.free_ub x hx
        have hxne : x ≠ id := fun he => hinv.disj x hx (he ▸ hid)
        omega)
      (fun x hx hmem => hinv.disj x hx (List.mem_of_mem_erase hmem))
      (fun x hx => by
        have hxo := List.mem_of_mem_erase hx
        have hxub := hinv.outs_ub x hxo
        have hxne : x ≠ id := ((hinv.nodup.mem_erase_iff).mp hx).1
        omega)
      (by omega)
    refine ⟨hsweep.1, hsweep.2.1, hsweep.2.2.1, ?_, hsweep.2.2.2.2.1, ?_,
      hinv.nodup.erase id, hsweep.2.2.2.2.2.1, ?_⟩
    · intro x hx
      exact hinv.outs_lb x (List.mem_of_mem_erase hx)
    · exact hsweep.2.2.2.1
    · show (sweepTail (st.next - 1) st.free_list).1 ≤ CLIENT_MAX_ID + 1
      have h1 := hsweep.2.2.2.2.2.2
      have h2 := hinv.next_ub
      omega
  · rename_i hne
    have hidnotfree : id ∉ st.free_list := fun hmem => hinv.disj id hmem hid
    refine ⟨heapPush_sorted id st.free_list hinv.sorted hidnotfree, ?_, ?_, ?_, ?_, ?_,
      hinv.nodup.erase id, hinv.next_lb, hinv.next_ub⟩
    · intro x hx
      rcases (heapPush_mem id x st.free_list).mp hx with rfl | hx'
      · exact hidlb
      · exact hinv.free_lb x hx'
    · intro x hx
      show x < st.next
      rcases (heapPush_mem id x st.free_list).mp hx with rfl | hx'
      · exact hidlt
      · exact hinv.free_ub x hx'
    · intro x hx
      exact hinv.outs_lb x (List.mem_of_mem_erase hx)
    · intro x hx
      show x < st.next
      exact hinv.outs_ub x (List.mem_of_mem_erase hx)
    · intro x hx hmem
      rcases (heapPush_mem id x st.free_list).mp hx with rfl | hx'
      · exact ((hinv.nodup.mem_erase_iff).mp hmem).1 rfl
      · exact hinv.disj x hx' (List.mem_of_mem_erase hmem)

theorem wf_allocsOk (ops : List Op) :
    ∀ (st : IdManagerInner) (outs : List Nat), IdInv st outs →
      wfOps st outs ops = true → allocsOk st outs ops = true := by
  induction ops with
  | nil => intro st outs _ _; rfl
  | cons op rest ih =>
    intro st outs hinv hwf
    cases op with
    | alloc =>
      cases ha : st.alloc_id with
      | error e =>
        rw [wfOps] at hwf
        rw [ha] at hwf
        have hwf' : wfOps st outs rest = true := hwf
        rw [allocsOk, ha]
        show allocsOk st outs rest = true
        exact ih st outs hinv hwf'
      | ok p =>
        obtain ⟨idN, st'⟩ := p
        rw [wfOps] at hwf
        rw [ha] at hwf
        have hwf' : wfOps st' (idN :: outs) rest = true := hwf
        rw [allocsOk, ha]
        obtain ⟨hprops, hinv'⟩ := alloc_id_spec st outs hinv idN st' ha
        show ((decide (CLIENT_MIN_ID ≤ idN) && decide (idN ≤ CLIENT_MAX_ID) &&
            !decide (idN ∈ outs)) && allocsOk st' (idN :: outs) rest) = true
        rw [ih st' (idN :: outs) hinv' hwf']
        simp only [Bool.and_true, Bool.and_eq_true, decide_eq_true_eq,
          Bool.not_eq_true', decide_eq_false_iff_not]
        exact ⟨⟨hprops.1, hprops.2.1⟩, hprops.2.2⟩
    | recycle rid =>
      rw [wfOps, Bool.and_eq_true, decide_eq_true_eq] at hwf
      obtain ⟨hmem, hwf'⟩ := hwf
      rw [allocsOk]
      exact ih _ _ (recycle_id_spec st outs rid hinv hmem) hwf'

/-- C4 counterexample: the claim quantifies over EVERY finite sequence
of `alloc_id`/`recycle_id` operations. Recycling the never-allocated
id 1 on a fresh manager pushes 1 onto the heap while `next` is still
1; the first `alloc_id` then returns `next = 1` (the heap minimum is
not `< next`) WITHOUT popping the heap, and the second `alloc_id` pops
the heap and returns 1 again — an id that is still outstanding. -/
theorem C4_counterexample :
    allocsOk IdManagerInner.new [] [Op.recycle 1, Op.alloc, Op.alloc] = false ∧
    IdManagerInner.recycle_id 1 IdManagerInner.new = ⟨1, [1]⟩ ∧
    IdManagerInner.alloc_id ⟨1, [1]⟩ = .ok (1, ⟨2, [1]⟩) ∧
    IdManagerInner.alloc_id ⟨2, [1]⟩ = .ok (1, ⟨2, []⟩) :=
  ⟨rfl, rfl, rfl, rfl⟩

/-- C4 (amended): for every finite sequence of `alloc_id`/`recycle_id`
operations on a fresh `IdManager` in which each `recycle_id` call's
argument is currently outstanding (previously returned by `alloc_id`
and not since recycled), every id `alloc_id` returns lies in
`[0x00000001, 0xFEFFFFFF]` and is not currently outstanding; a failing
`alloc_id` fails with `OutOfClientIds(next)`. -/
theorem C4_idmanager_safety (ops : List Op)
    (hwf : wfOps IdManagerInner.new [] ops = true) :
    allocsOk IdManagerInner.new [] ops = true ∧
    (∀ (st : IdManagerInner) (e : IdManagerError), st.alloc_id = .error e →
      e = .OutOfClientIds st.next) := by
  constructor
  · refine wf_allocsOk ops IdManagerInner.new [] ?_ hwf
    refine ⟨by simp [IdManagerInner.new], by simp [IdManagerInner.new],
      by simp [IdManagerInner.new], by simp, by simp, by simp [IdManagerInner.new],
      List.nodup_nil, le_refl _, ?_⟩
    show CLIENT_MIN_ID ≤ CLIENT_MAX_ID + 1
    decide
  · intro st e h
    rw [IdManagerInner.alloc_id] at h
    split at h
    · exact ((Except.error.injEq _ _).mp h).symm
    · split at h
      · split at h <;> exact absurd h (by simp)
      · exact absurd h (by simp)

/-- Witness for `C4_idmanager_safety`: the well-formed trace
`alloc; alloc; recycle 1; alloc`. -/
theorem C4_idmanager_safety_witness :
    allocsOk IdManagerInner.new [] [Op.alloc, Op.alloc, Op.recycle 1, Op.alloc] = true ∧
    (∀ (st : IdManagerInner) (e : IdManagerError), st.alloc_id = .error e →
      e = .OutOfClientIds st.next) :=
  C4_idmanager_safety [Op.alloc, Op.alloc, Op.recycle 1, Op.alloc] (by decide)

end Denali
